import Mathlib

/-!
# CLI11 `TypeTools.hpp`: the string-to-value coercion engine

A shallow embedding of `include/CLI/TypeTools.hpp` (namespace `CLI::detail`) and of the
error classes of `include/CLI/Error.hpp`.

* A `std::string` is a `List Char`, one `Char` per `char` of the C++ string.
* A C++ function that can throw returns `Except StdExcept _`; a `try`/`catch`
  block is a `match` on that value, one arm per `catch` clause, and an exception
  with no matching clause is passed on unchanged.
* A `T &output` parameter is a value passed in and returned next to the
  function's result: `lexical_cast` returns `(result, output after the call)`.
* Machine integers are `Int`/`Nat` with explicit reduction modulo `2 ^ w`.
* A type is known through the answers of its type traits; overload resolution picks the
  one overload whose `enable_if_t` condition holds.
-/

namespace CLI

/-! ## The standard library the engine calls -/

/-- The two exceptions of `<stdexcept>` that `std::stoll` and `std::stoull` raise, and the
one `to_flag_value` raises itself. -/
inductive StdExcept where
  | invalid_argument
  | out_of_range
  deriving DecidableEq, Repr

/-- Equality of the results of a call that can throw is decidable. -/
instance instDecidableEqExcept {ε α : Type} [DecidableEq ε] [DecidableEq α] :
    DecidableEq (Except ε α)
  | .ok a, .ok b => if h : a = b then isTrue (by rw [h]) else isFalse (by intro e; cases e; exact h rfl)
  | .error a, .error b =>
    if h : a = b then isTrue (by rw [h]) else isFalse (by intro e; cases e; exact h rfl)
  | .ok _, .error _ => isFalse (by intro e; cases e)
  | .error _, .ok _ => isFalse (by intro e; cases e)

/-- The function `isspace` of `<cctype>` in the "C" locale. -/
def isspace (c : Char) : Bool :=
  c == ' ' || c == '\t' || c == '\n' || c == '\x0b' || c == '\x0c' || c == '\r'

/-- The value of a character read as a digit by `strtoll`: `0`-`9`, then the letters of
either case for ten to thirty-five. -/
def digitValue (c : Char) : Option Nat :=
  if '0' ≤ c ∧ c ≤ '9' then some (c.toNat - 48)
  else if 'a' ≤ c ∧ c ≤ 'z' then some (c.toNat - 97 + 10)
  else if 'A' ≤ c ∧ c ≤ 'Z' then some (c.toNat - 65 + 10)
  else none

/-- A character is a digit of base `base` when its value is below the base. -/
def digitInBase (base : Nat) (c : Char) : Option Nat :=
  match digitValue c with
  | some d => if d < base then some d else none
  | none => none

/-- The digit loop of `strtoll`: reads the longest run of digits of base `base`, and
returns the accumulated magnitude and the number of characters read. -/
def scanDigits (base : Nat) : List Char → Nat → Nat → Nat × Nat
  | [], acc, k => (acc, k)
  | c :: cs, acc, k =>
    match digitInBase base c with
    | some d => scanDigits base cs (acc * base + d) (k + 1)
    | none => (acc, k)

/-- Whether the text starts with `0x` or `0X` followed by a hexadecimal digit; without the
digit the subject sequence of `strtoll` is the `0` alone. -/
def hexIntroduced : List Char → Bool
  | c0 :: c1 :: c2 :: _ => c0 == '0' && (c1 == 'x' || c1 == 'X') && (digitInBase 16 c2).isSome
  | _ => false

/-- Whether the text starts with the character `0`. -/
def zeroLed : List Char → Bool
  | c0 :: _ => c0 == '0'
  | [] => false

/-- Base detection of `strtoll`: the base in effect, the length of the introducer that is
skipped, and the text the digits are read from. -/
def detectBase (base : Nat) (s : List Char) : Nat × Nat × List Char :=
  if (base = 0 ∨ base = 16) ∧ hexIntroduced s = true then (16, 2, s.drop 2)
  else if base = 0 then
    if zeroLed s = true then (8, 0, s) else (10, 0, s)
  else (base, 0, s)

/-- The sign of the subject sequence: whether it is negative, the length of the sign, and
the text after it. -/
def readSign : List Char → Bool × Nat × List Char
  | [] => (false, 0, [])
  | c :: cs =>
    if c = '-' then (true, 1, cs)
    else if c = '+' then (false, 1, cs)
    else (false, 0, c :: cs)

/-- What `strtoll` and `strtoull` read from a text. -/
structure Subject where
  negative : Bool
  magnitude : Nat
  consumed : Nat
  deriving DecidableEq, Repr

/-- The part `strtoll` and `strtoull` of ISO C share: skip white space, read an optional
sign, detect the base, read the digits. `none` when no digit was read (no conversion). -/
def strtoSubject (base : Nat) (s : List Char) : Option Subject :=
  let blanks := (s.takeWhile isspace).length
  let s1 := s.dropWhile isspace
  let sg := readSign s1
  let db := detectBase base sg.2.2
  let ds := scanDigits db.1 db.2.2 0 0
  if ds.2 = 0 then none
  else some ⟨sg.1, ds.1, blanks + sg.2.1 + db.2.1 + ds.2⟩

/-- The function `std::stoll(str, &idx, base)` of ISO C++11: the value and the index of
the first unread character; `invalid_argument` when no conversion could be performed,
`out_of_range` when the value is not a `long long`. -/
def stoll (str : List Char) (base : Nat) : Except StdExcept (Int × Nat) :=
  match strtoSubject base str with
  | none => .error .invalid_argument
  | some sub =>
    let v : Int := if sub.negative then -(sub.magnitude : Int) else (sub.magnitude : Int)
    if v < -(2 ^ 63) ∨ 2 ^ 63 - 1 < v then .error .out_of_range
    else .ok (v, sub.consumed)

/-- The function `std::stoull(str, &idx, base)` of ISO C++11: a magnitude above
`ULLONG_MAX` is `out_of_range`, and a minus sign negates the magnitude in the unsigned
type. -/
def stoull (str : List Char) (base : Nat) : Except StdExcept (Nat × Nat) :=
  match strtoSubject base str with
  | none => .error .invalid_argument
  | some sub =>
    if 2 ^ 64 - 1 < sub.magnitude then .error .out_of_range
    else .ok (if sub.negative then (2 ^ 64 - sub.magnitude) % 2 ^ 64 else sub.magnitude,
      sub.consumed)

/-- The cast `static_cast<T>(v)` to a signed integral type of `w` bits. -/
def castSigned (w : Nat) (v : Int) : Int :=
  (v + 2 ^ (w - 1)) % 2 ^ w - 2 ^ (w - 1)

/-- The cast `static_cast<T>(v)` to an unsigned integral type of `w` bits. -/
def castUnsigned (w : Nat) (v : Nat) : Nat :=
  v % 2 ^ w

/-- Modelled from the spec: `detail::to_lower` of `StringTools.hpp`, which is not among the
sources; the spec says "lower-case the token". Every character is lower-cased on its own,
in the "C" locale. -/
def to_lower (str : List Char) : List Char :=
  str.map Char.toLower

/-! ## `TypeTools.hpp` -/

/-- The static `trueString` of `to_flag_value`. -/
def trueString : List Char := ['t', 'r', 'u', 'e']

/-- The static `falseString` of `to_flag_value`. -/
def falseString : List Char := ['f', 'a', 'l', 's', 'e']

/-- The `switch (val[0])` of `to_flag_value`. -/
def flagOfChar (c : Char) : Except StdExcept Int :=
  if c = '0' ∨ c = 'f' ∨ c = 'n' ∨ c = '-' then .ok (-1)
  else if c = '1' ∨ c = 't' ∨ c = 'y' ∨ c = '+' then .ok 1
  else if c = '2' ∨ c = '3' ∨ c = '4' ∨ c = '5' ∨ c = '6' ∨ c = '7' ∨ c = '8' ∨ c = '9' then
    .ok ((c.toNat : Int) - ('0'.toNat : Int))
  else .error .invalid_argument

/-- The function `to_flag_value`: convert a flag into an integer value. -/
def to_flag_value (val : List Char) : Except StdExcept Int :=
  if val = trueString then .ok 1
  else if val = falseString then .ok (-1)
  else
    let val := to_lower val
    match val with
    | [c] => flagOfChar c
    | _ =>
      if val = trueString ∨ val = ['o', 'n'] ∨ val = ['y', 'e', 's'] ∨
          val = ['e', 'n', 'a', 'b', 'l', 'e'] then .ok 1
      else if val = falseString ∨ val = ['o', 'f', 'f'] ∨ val = ['n', 'o'] ∨
          val = ['d', 'i', 's', 'a', 'b', 'l', 'e'] then .ok (-1)
      else
        match stoll val 10 with
        | .ok (ret, _) => .ok ret
        | .error e => .error e

/-- The overload `lexical_cast` for signed integers, into a type of `w` bits. -/
def lexical_cast_signed (w : Nat) (input : List Char) (output : Int) :
    Except StdExcept (Bool × Int) :=
  match stoll input 0 with
  | .ok (output_ll, n) =>
    let output := castSigned w output_ll
    .ok (n == input.length && output == output_ll, output)
  | .error .invalid_argument => .ok (false, output)
  | .error .out_of_range => .ok (false, output)

/-- The overload `lexical_cast` for unsigned integers, into a type of `w` bits. -/
def lexical_cast_unsigned (w : Nat) (input : List Char) (output : Nat) :
    Except StdExcept (Bool × Nat) :=
  if !input.isEmpty && input.head? == some '-' then .ok (false, output)
  else
    match stoull input 0 with
    | .ok (output_ll, n) =>
      let output := castUnsigned w output_ll
      .ok (n == input.length && output == output_ll, output)
    | .error .invalid_argument => .ok (false, output)
    | .error .out_of_range => .ok (false, output)

/-- The overload `lexical_cast` for `bool`; its `try` has one `catch` clause, for
`std::invalid_argument`. -/
def lexical_cast_bool (input : List Char) (output : Bool) : Except StdExcept (Bool × Bool) :=
  match to_flag_value input with
  | .ok out => .ok (true, decide (out > 0))
  | .error .invalid_argument => .ok (false, output)
  | .error e => .error e

/-- The overload `lexical_assign<T, XC>` for `T == XC`, over the `lexical_cast` overload
that the type selects. -/
def lexical_assign_same {T : Type} (lexical_cast : List Char → T → Except StdExcept (Bool × T))
    (input : List Char) (output : T) : Except StdExcept (Bool × T) :=
  lexical_cast input output

/-- The loop `for(auto &flag : flags) count += detail::to_flag_value(flag);` of
`sum_flag_vector`, on the `int64_t` accumulator `count`: every addition is reduced into the
64-bit signed range, and an exception of `to_flag_value` leaves the loop. -/
def sumFlags : List (List Char) → Int → Except StdExcept Int
  | [], count => .ok count
  | flag :: flags, count =>
    match to_flag_value flag with
    | .ok v => sumFlags flags (castSigned 64 (count + v))
    | .error e => .error e

/-- The overload `sum_flag_vector` for unsigned integers of `w` bits: the output after the
call. The function has no `try` block. -/
def sum_flag_vector_unsigned (w : Nat) (flags : List (List Char)) : Except StdExcept Nat :=
  match sumFlags flags 0 with
  | .ok count => .ok (if count > 0 then castUnsigned w count.toNat else 0)
  | .error e => .error e

/-- The overload `sum_flag_vector` for signed integers of `w` bits: the output after the
call. -/
def sum_flag_vector_signed (w : Nat) (flags : List (List Char)) : Except StdExcept Int :=
  match sumFlags flags 0 with
  | .ok count => .ok (castSigned w count)
  | .error e => .error e

/-- A value of an enumeration type whose underlying type is `U`: `static_cast<T>(val)` is
`EnumOf.mk val`, for every `val` of the underlying type. -/
structure EnumOf (U : Type) where
  underlying : U
  deriving DecidableEq, Repr

/-- The overload `lexical_cast` for enumerations, over the `lexical_cast` overload of the
underlying type. The local `val` is not initialised in the source; the value it holds
before the inner call is the parameter `val`. -/
def lexical_cast_enum {U : Type}
    (lexical_cast : List Char → U → Except StdExcept (Bool × U))
    (input : List Char) (val : U) (output : EnumOf U) : Except StdExcept (Bool × EnumOf U) :=
  match lexical_cast input val with
  | .ok (retval, val) =>
    if !retval then .ok (false, output)
    else .ok (true, EnumOf.mk val)
  | .error e => .error e

/-- The overload `lexical_cast` for a type that a `std::string` can be assigned to;
`assign output input` is the output after `output = input`. -/
def lexical_cast_string_assignable {T : Type} (assign : T → List Char → T)
    (input : List Char) (output : T) : Except StdExcept (Bool × T) :=
  .ok (true, assign output input)

/-- Copy assignment of `std::string`: the string holds the characters assigned to it. -/
def string_assign (_output : List Char) (input : List Char) : List Char :=
  input

/-- The overload `lexical_assign<T, XC>` for `T != XC` and `T` assignable from `XC`, over
the `lexical_cast` overload of `XC`; `assign output val` is the output after
`output = val`. The local `val` is not initialised in the source; the value it holds before
the inner call is the parameter `val`. -/
def lexical_assign_assignable {T XC : Type}
    (lexical_cast : List Char → XC → Except StdExcept (Bool × XC)) (assign : T → XC → T)
    (input : List Char) (val : XC) (output : T) : Except StdExcept (Bool × T) :=
  match lexical_cast input val with
  | .ok (parse_result, val) =>
    .ok (parse_result, if parse_result then assign output val else output)
  | .error e => .error e

/-- The overload `lexical_assign<T, XC>` for `T != XC`, `T` not assignable from `XC` and
move-assignable; `construct val` is `T(val)`. -/
def lexical_assign_constructible {T XC : Type}
    (lexical_cast : List Char → XC → Except StdExcept (Bool × XC)) (construct : XC → T)
    (input : List Char) (val : XC) (output : T) : Except StdExcept (Bool × T) :=
  match lexical_cast input val with
  | .ok (parse_result, val) =>
    .ok (parse_result, if parse_result then construct val else output)
  | .error e => .error e

/-- What the type traits in the `enable_if_t` conditions of the `lexical_cast` overloads
answer for a destination type `T`. -/
structure TypeTraits where
  /-- The trait `std::is_integral<T>`. -/
  is_integral : Bool
  /-- The trait `std::is_signed<T>`. -/
  is_signed : Bool
  /-- The trait `std::is_unsigned<T>`. -/
  is_unsigned : Bool
  /-- The trait `is_bool<T>`. -/
  is_bool : Bool
  /-- The trait `std::is_floating_point<T>`. -/
  is_floating_point : Bool
  /-- The trait `std::is_enum<T>`. -/
  is_enum : Bool
  /-- The trait `std::is_assignable<T &, std::string>`. -/
  is_assignable_string : Bool
  /-- The trait `std::is_constructible<T, std::string>`. -/
  is_constructible_string : Bool
  /-- The trait `is_direct_constructible<T, double>`. -/
  is_direct_constructible_double : Bool
  /-- The trait `is_direct_constructible<T, int>`. -/
  is_direct_constructible_int : Bool
  deriving DecidableEq, Repr

/-- The overloads of `lexical_cast`, in the order of the source. -/
inductive Strategy where
  | signed_integral
  | unsigned_integral
  | boolean
  | floating
  | string_assignable
  | string_constructible
  | enumeration
  | from_double_or_int
  | from_int
  | from_double
  | stream
  deriving DecidableEq, Repr

/-- The `enable_if_t` condition of each overload of `lexical_cast`. -/
def Strategy.enabled (t : TypeTraits) : Strategy → Bool
  | .signed_integral => t.is_integral && t.is_signed && !t.is_bool && !t.is_enum
  | .unsigned_integral => t.is_integral && t.is_unsigned && !t.is_bool
  | .boolean => t.is_bool
  | .floating => t.is_floating_point
  | .string_assignable => !t.is_floating_point && !t.is_integral && t.is_assignable_string
  | .string_constructible =>
    !t.is_floating_point && !t.is_integral && !t.is_assignable_string &&
      t.is_constructible_string
  | .enumeration => t.is_enum
  | .from_double_or_int =>
    !t.is_floating_point && !t.is_integral && !t.is_assignable_string &&
      !t.is_constructible_string && !t.is_enum &&
      t.is_direct_constructible_double && t.is_direct_constructible_int
  | .from_int =>
    !t.is_floating_point && !t.is_integral && !t.is_assignable_string &&
      !t.is_constructible_string && !t.is_enum &&
      !t.is_direct_constructible_double && t.is_direct_constructible_int
  | .from_double =>
    !t.is_floating_point && !t.is_integral && !t.is_assignable_string &&
      !t.is_constructible_string && !t.is_enum &&
      t.is_direct_constructible_double && !t.is_direct_constructible_int
  | .stream =>
    !t.is_floating_point && !t.is_integral && !t.is_assignable_string &&
      !t.is_constructible_string && !t.is_enum &&
      !t.is_direct_constructible_double && !t.is_direct_constructible_int

/-- The overload set of `lexical_cast`. -/
def overloads : List Strategy :=
  [.signed_integral, .unsigned_integral, .boolean, .floating, .string_assignable,
    .string_constructible, .enumeration, .from_double_or_int, .from_int, .from_double, .stream]

/-- The overloads that take part in overload resolution for a type: those whose condition
holds. -/
def viable (t : TypeTraits) : List Strategy :=
  overloads.filter (Strategy.enabled t)

/-- Overload resolution of a call `lexical_cast(input, output)`: the one viable overload;
no viable overload, or more than one, does not compile. -/
def selected (t : TypeTraits) : Option Strategy :=
  match viable t with
  | [s] => some s
  | _ => none

/-- The member `value` of `pair_adaptor`: the specialization (`std::true_type`) is chosen
when the element type has the member types `first_type` and `second_type`, the primary
template (`std::false_type`) otherwise. -/
def pair_adaptor_value (has_first_type has_second_type : Bool) : Bool :=
  has_first_type && has_second_type

/-- The function `pair_adaptor<T>::first` of the primary template (set-like). -/
def pair_adaptor_first {Q : Type} (pair_value : Q) : Q :=
  pair_value

/-- The function `pair_adaptor<T>::second` of the primary template (set-like). -/
def pair_adaptor_second {Q : Type} (pair_value : Q) : Q :=
  pair_value

/-- The function `pair_adaptor<T>::first` of the specialization (map-like):
`std::get<0>(pair_value)`. -/
def pair_adaptor_map_first {K V : Type} (pair_value : K × V) : K :=
  pair_value.1

/-- The function `pair_adaptor<T>::second` of the specialization (map-like):
`std::get<1>(pair_value)`. -/
def pair_adaptor_map_second {K V : Type} (pair_value : K × V) : V :=
  pair_value.2

/-- The overload `lexical_cast` for a type direct-constructible from `double` and from
`int` ("Assignable from double or int"). The parse into `double`, the two constructions and
`from_stream` are parameters: `lexical_cast_double` is the floating-point overload,
`from_int val` is `T(val)`, `from_double dval` is `T{dval}`. The locals `val` and `dval` are
not initialised in the source; the values they hold before the inner calls are the
parameters `val` and `dval`. -/
def lexical_cast_from_double_or_int {T D : Type}
    (lexical_cast_double : List Char → D → Except StdExcept (Bool × D))
    (from_stream : List Char → T → Except StdExcept (Bool × T))
    (from_int : Int → T) (from_double : D → T)
    (input : List Char) (val : Int) (dval : D) (output : T) : Except StdExcept (Bool × T) :=
  match lexical_cast_signed 32 input val with
  | .error e => .error e
  | .ok (true, val) => .ok (true, from_int val)
  | .ok (false, _) =>
    match lexical_cast_double input dval with
    | .error e => .error e
    | .ok (true, dval) => .ok (true, from_double dval)
    | .ok (false, _) => from_stream input output

/-- The types the pointer and container traits tell apart, the last four with their
top-level `const`:
* `plain`: a type that is no pointer, no class template instantiation, and has no member
  type `element_type` (`int`, an enumeration, a plain class);
* `class_template`: an instantiation `name<argument, ...>` of a class template all of whose
  template arguments are types, `argument` the first (`std::vector<T, A>`, `std::set<T>`,
  `std::shared_ptr<T>`); other than `std::shared_ptr` it has no member type `element_type`;
* `class_template_other`: an instantiation of a class template with a template argument
  that is not a type (`std::array<int, 3>`, `std::bitset<8>`), and no member type
  `element_type`;
* `class_with_element_type`: a class other than `std::shared_ptr` that declares the member
  type `element_type` as `member` (`std::unique_ptr<T>`, `std::weak_ptr<T>`);
* `raw_pointer`: a pointer to `pointee`. -/
inductive CppType where
  | plain (name : String)
  | class_template (name : String) (argument : CppType) (is_const : Bool)
  | raw_pointer (pointee : CppType) (is_const : Bool)
  | class_template_other (name : String) (is_const : Bool)
  | class_with_element_type (name : String) (member : CppType) (is_const : Bool)
  deriving DecidableEq, Repr

/-- The trait `is_vector<T>`: the specialization is for `std::vector<T, A>`. -/
def is_vector : CppType → Bool
  | .class_template name _ false => name == "std::vector"
  | _ => false

/-- The trait `std::is_same<T1, T2>` of the standard library. -/
def is_same (T1 T2 : CppType) : Bool :=
  decide (T1 = T2)

/-- The overloads of `to_string`, in the order of the source. -/
inductive ToStringOverload where
  | forward
  | stream
  | empty
  deriving DecidableEq, Repr

/-- The `enable_if_t` condition of each overload of `to_string`, from the answers of
`std::is_constructible<std::string, T>` and `is_ostreamable<T>`. -/
def ToStringOverload.enabled (is_constructible is_ostreamable : Bool) :
    ToStringOverload → Bool
  | .forward => is_constructible
  | .stream => !is_constructible && is_ostreamable
  | .empty => !is_constructible && !is_ostreamable

/-- The function `to_string`: the one viable overload is called. The first overload
returns the value itself (left), the others return a `std::string` (right);
`insert value` is the text `stream << value` writes to the empty stream. `none` when no
overload, or more than one, is viable. -/
def to_string {T : Type} (is_constructible is_ostreamable : Bool) (insert : T → List Char)
    (value : T) : Option (T ⊕ List Char) :=
  match [ToStringOverload.forward, .stream, .empty].filter
      (ToStringOverload.enabled is_constructible is_ostreamable) with
  | [.forward] => some (.inl value)
  | [.stream] => some (.inr (insert value))
  | [.empty] => some (.inr [])
  | _ => none

/-- The function `checked_to_string<T1, T2>`: the overload for `std::is_same<T1, T2>`
calls `to_string`, the other returns an empty `std::string`. -/
def checked_to_string {T : Type} (T1 T2 : CppType) (is_constructible is_ostreamable : Bool)
    (insert : T → List Char) (value : T) : Option (T ⊕ List Char) :=
  if is_same T1 T2 then to_string is_constructible is_ostreamable insert value
  else some (.inr [])

/-- The overloads of `type_name`, in the order of the source. -/
inductive TypeNameOverload where
  | INT
  | UINT
  | FLOAT
  | VECTOR
  | ENUM
  | TEXT
  deriving DecidableEq, Repr

/-- The `enable_if_t` condition of each overload of `type_name`. -/
def TypeNameOverload.enabled (t : TypeTraits) (is_vector : Bool) : TypeNameOverload → Bool
  | .INT => t.is_integral && t.is_signed
  | .UINT => t.is_integral && t.is_unsigned
  | .FLOAT => t.is_floating_point
  | .VECTOR => is_vector
  | .ENUM => t.is_enum
  | .TEXT => !t.is_floating_point && !t.is_integral && !is_vector && !t.is_enum

/-- The text each overload of `type_name` returns. -/
def TypeNameOverload.text : TypeNameOverload → List Char
  | .INT => "INT".toList
  | .UINT => "UINT".toList
  | .FLOAT => "FLOAT".toList
  | .VECTOR => "VECTOR".toList
  | .ENUM => "ENUM".toList
  | .TEXT => "TEXT".toList

/-- The overloads of `type_name` that are viable for a type. -/
def type_name_viable (t : TypeTraits) (is_vector : Bool) : List TypeNameOverload :=
  [TypeNameOverload.INT, .UINT, .FLOAT, .VECTOR, .ENUM, .TEXT].filter
    (TypeNameOverload.enabled t is_vector)

/-- The function `type_name<T>()`: the text of the one viable overload; `none` when no
overload, or more than one, is viable. -/
def type_name (t : TypeTraits) (is_vector : Bool) : Option (List Char) :=
  match type_name_viable t is_vector with
  | [o] => some o.text
  | _ => none

/-! ## `Error.hpp` -/

/-- The enumeration `ExitCodes`. -/
inductive ExitCodes where
  | Success
  | IncorrectConstruction
  | BadNameString
  | OptionAlreadyAdded
  | File
  | ConversionError
  | ValidationError
  | RequiredError
  | RequiresError
  | ExcludesError
  | ExtrasError
  | ExtrasINIError
  | InvalidError
  | HorribleError
  | OptionNotFound
  | BaseClass
  deriving DecidableEq, Repr

/-- The enumerator list of `ExitCodes` as the source writes it: each enumerator with its
initialiser, if it has one. -/
def ExitCodes.declarations : List (ExitCodes × Option Int) :=
  [(.Success, some 0), (.IncorrectConstruction, some 100), (.BadNameString, none),
    (.OptionAlreadyAdded, none), (.File, none), (.ConversionError, none),
    (.ValidationError, none), (.RequiredError, none), (.RequiresError, none),
    (.ExcludesError, none), (.ExtrasError, none), (.ExtrasINIError, none),
    (.InvalidError, none), (.HorribleError, none), (.OptionNotFound, none),
    (.BaseClass, some 127)]

/-- The values of the enumerators of an enumeration: the initialiser where there is one,
otherwise the value of the previous enumerator plus one; `previous` is `-1` at the start. -/
def enumeratorValues {E : Type} : List (E × Option Int) → Int → List (E × Int)
  | [], _ => []
  | (e, some v) :: rest, _ => (e, v) :: enumeratorValues rest v
  | (e, none) :: rest, previous => (e, previous + 1) :: enumeratorValues rest (previous + 1)

/-- The cast `static_cast<int>(exit_code)` of an `ExitCodes` value. -/
def ExitCodes.toInt (code : ExitCodes) : Int :=
  ((enumeratorValues ExitCodes.declarations (-1)).lookup code).getD 0

/-- The identifier of an enumerator, which the macros stringify with `#name`. -/
def ExitCodes.identifier : ExitCodes → List Char
  | .Success => "Success".toList
  | .IncorrectConstruction => "IncorrectConstruction".toList
  | .BadNameString => "BadNameString".toList
  | .OptionAlreadyAdded => "OptionAlreadyAdded".toList
  | .File => "File".toList
  | .ConversionError => "ConversionError".toList
  | .ValidationError => "ValidationError".toList
  | .RequiredError => "RequiredError".toList
  | .RequiresError => "RequiresError".toList
  | .ExcludesError => "ExcludesError".toList
  | .ExtrasError => "ExtrasError".toList
  | .ExtrasINIError => "ExtrasINIError".toList
  | .InvalidError => "InvalidError".toList
  | .HorribleError => "HorribleError".toList
  | .OptionNotFound => "OptionNotFound".toList
  | .BaseClass => "BaseClass".toList

/-- An object of the class `Error`: the message of its base `std::runtime_error`, and its
members `exit_code` and `name`. -/
structure Error where
  what : List Char
  exit_code : Int
  name : List Char
  deriving DecidableEq, Repr

/-- The member function `Error::get_exit_code`. -/
def Error.get_exit_code (e : Error) : Int :=
  e.exit_code

/-- The member function `Error::get_name`. -/
def Error.get_name (e : Error) : List Char :=
  e.name

/-- The constructors that take a name, a message and an exit code, which a class hands to
the classes derived from it. -/
structure NamedCtors where
  /-- The constructor `(std::string name, std::string msg, int exit_code)`. -/
  with_int : List Char → List Char → Int → Error
  /-- The constructor `(std::string name, std::string msg, ExitCodes exit_code)`. -/
  with_code : List Char → List Char → ExitCodes → Error

/-- The constructors the macro `CLI11_ERROR_DEF` gives a class. -/
structure ErrorCtors extends NamedCtors where
  /-- The constructor `(std::string msg, ExitCodes exit_code)`. -/
  msg_code : List Char → ExitCodes → Error
  /-- The constructor `(std::string msg, int exit_code)`. -/
  msg_int : List Char → Int → Error

/-- The two constructors of the class `Error`; the second delegates to the first with
`static_cast<int>(exit_code)`. -/
def Error.ctors : NamedCtors :=
  { with_int := fun name msg exit_code => { what := msg, exit_code := exit_code, name := name },
    with_code := fun name msg exit_code =>
      { what := msg, exit_code := exit_code.toInt, name := name } }

/-- The macro `CLI11_ERROR_DEF(parent, name)`: every constructor delegates to a
constructor of the parent, the public ones with the stringified class name. -/
def CLI11_ERROR_DEF (parent : NamedCtors) (name : List Char) : ErrorCtors :=
  { with_int := fun n msg exit_code => parent.with_int n msg exit_code,
    with_code := fun n msg exit_code => parent.with_code n msg exit_code,
    msg_code := fun msg exit_code => parent.with_code name msg exit_code,
    msg_int := fun msg exit_code => parent.with_int name msg exit_code }

/-- The macro `CLI11_ERROR_SIMPLE(name)` in a class with the constructors `self`:
the constructor `name(std::string msg) : name(#name, msg, ExitCodes::name)`. -/
def CLI11_ERROR_SIMPLE (self : ErrorCtors) (name : ExitCodes) (msg : List Char) : Error :=
  self.with_code name.identifier msg name

/-- The class `ConstructionError`. -/
def ConstructionError : ErrorCtors :=
  CLI11_ERROR_DEF Error.ctors "ConstructionError".toList

/-- The class `IncorrectConstruction`. -/
def IncorrectConstruction : ErrorCtors :=
  CLI11_ERROR_DEF ConstructionError.toNamedCtors "IncorrectConstruction".toList

/-- The constructor `IncorrectConstruction(std::string msg)`. -/
def IncorrectConstruction.simple : List Char → Error :=
  CLI11_ERROR_SIMPLE IncorrectConstruction .IncorrectConstruction

/-- The class `BadNameString`. -/
def BadNameString : ErrorCtors :=
  CLI11_ERROR_DEF ConstructionError.toNamedCtors "BadNameString".toList

/-- The constructor `BadNameString(std::string msg)`. -/
def BadNameString.simple : List Char → Error :=
  CLI11_ERROR_SIMPLE BadNameString .BadNameString

/-- The class `OptionAlreadyAdded`. -/
def OptionAlreadyAdded : ErrorCtors :=
  CLI11_ERROR_DEF ConstructionError.toNamedCtors "OptionAlreadyAdded".toList

/-- The constructor `OptionAlreadyAdded(std::string msg)`. -/
def OptionAlreadyAdded.simple : List Char → Error :=
  CLI11_ERROR_SIMPLE OptionAlreadyAdded .OptionAlreadyAdded

/-- The class `ParseError`. -/
def ParseError : ErrorCtors :=
  CLI11_ERROR_DEF Error.ctors "ParseError".toList

/-- The class `Success`. -/
def Success : ErrorCtors :=
  CLI11_ERROR_DEF ParseError.toNamedCtors "Success".toList

/-- The constructor `Success()`. -/
def Success.default : Error :=
  Success.msg_code "Successfully completed, should be caught and quit".toList .Success

/-- The class `CallForHelp`. -/
def CallForHelp : ErrorCtors :=
  CLI11_ERROR_DEF ParseError.toNamedCtors "CallForHelp".toList

/-- The constructor `CallForHelp()`. -/
def CallForHelp.default : Error :=
  CallForHelp.msg_code "This should be caught in your main function, see examples".toList
    .Success

/-- The class `RuntimeError`. -/
def RuntimeError : ErrorCtors :=
  CLI11_ERROR_DEF ParseError.toNamedCtors "RuntimeError".toList

/-- The constructor `RuntimeError(int exit_code = 1)`; `none` is the call without an
argument. -/
def RuntimeError.of_exit_code (exit_code : Option Int) : Error :=
  RuntimeError.msg_int "Runtime error".toList (exit_code.getD 1)

/-- The class `FileError`. -/
def FileError : ErrorCtors :=
  CLI11_ERROR_DEF ParseError.toNamedCtors "FileError".toList

/-- The constructor `FileError(std::string msg)`. -/
def FileError.of_msg (msg : List Char) : Error :=
  FileError.msg_code msg .File

/-- The class `ConversionError`. -/
def ConversionError : ErrorCtors :=
  CLI11_ERROR_DEF ParseError.toNamedCtors "ConversionError".toList

/-- The constructor `ConversionError(std::string msg)`. -/
def ConversionError.simple : List Char → Error :=
  CLI11_ERROR_SIMPLE ConversionError .ConversionError

/-- The class `ValidationError`. -/
def ValidationError : ErrorCtors :=
  CLI11_ERROR_DEF ParseError.toNamedCtors "ValidationError".toList

/-- The constructor `ValidationError(std::string msg)`. -/
def ValidationError.simple : List Char → Error :=
  CLI11_ERROR_SIMPLE ValidationError .ValidationError

/-- The class `RequiredError`. -/
def RequiredError : ErrorCtors :=
  CLI11_ERROR_DEF ParseError.toNamedCtors "RequiredError".toList

/-- The constructor `RequiredError(std::string msg)`. -/
def RequiredError.simple : List Char → Error :=
  CLI11_ERROR_SIMPLE RequiredError .RequiredError

/-- The class `RequiresError`. -/
def RequiresError : ErrorCtors :=
  CLI11_ERROR_DEF ParseError.toNamedCtors "RequiresError".toList

/-- The constructor `RequiresError(std::string curname, std::string subname)`. -/
def RequiresError.of_names (curname subname : List Char) : Error :=
  RequiresError.msg_code (curname ++ " requires ".toList ++ subname) .RequiresError

/-- The class `ExcludesError`. -/
def ExcludesError : ErrorCtors :=
  CLI11_ERROR_DEF ParseError.toNamedCtors "ExcludesError".toList

/-- The constructor `ExcludesError(std::string curname, std::string subname)`. -/
def ExcludesError.of_names (curname subname : List Char) : Error :=
  ExcludesError.msg_code (curname ++ " excludes ".toList ++ subname) .ExcludesError

/-- The class `ExtrasError`. -/
def ExtrasError : ErrorCtors :=
  CLI11_ERROR_DEF ParseError.toNamedCtors "ExtrasError".toList

/-- The constructor `ExtrasError(std::string msg)`. -/
def ExtrasError.simple : List Char → Error :=
  CLI11_ERROR_SIMPLE ExtrasError .ExtrasError

/-- The class `ExtrasINIError`. -/
def ExtrasINIError : ErrorCtors :=
  CLI11_ERROR_DEF ParseError.toNamedCtors "ExtrasINIError".toList

/-- The constructor `ExtrasINIError(std::string msg)`. -/
def ExtrasINIError.simple : List Char → Error :=
  CLI11_ERROR_SIMPLE ExtrasINIError .ExtrasINIError

/-- The class `InvalidError`. -/
def InvalidError : ErrorCtors :=
  CLI11_ERROR_DEF ParseError.toNamedCtors "InvalidError".toList

/-- The constructor `InvalidError(std::string msg)`. -/
def InvalidError.simple : List Char → Error :=
  CLI11_ERROR_SIMPLE InvalidError .InvalidError

/-- The class `HorribleError`. -/
def HorribleError : ErrorCtors :=
  CLI11_ERROR_DEF ParseError.toNamedCtors "HorribleError".toList

/-- The constructor `HorribleError(std::string msg)`. -/
def HorribleError.simple : List Char → Error :=
  CLI11_ERROR_SIMPLE HorribleError .HorribleError

/-- The class `OptionNotFound`. -/
def OptionNotFound : ErrorCtors :=
  CLI11_ERROR_DEF Error.ctors "OptionNotFound".toList

/-- The constructor `OptionNotFound(std::string msg)`. -/
def OptionNotFound.simple : List Char → Error :=
  CLI11_ERROR_SIMPLE OptionNotFound .OptionNotFound

/-! ## The words of the claims -/

/-- The token is consumed entirely by the integer parse: `strtoll` with base `0` converts
and stops at the end of the token. -/
def consumedEntirely (input : List Char) : Prop :=
  ∃ sub, strtoSubject 0 input = some sub ∧ sub.consumed = input.length

/-- The sign written in front of an integer literal. -/
inductive Sign where
  | none
  | plus
  | minus
  deriving DecidableEq, Repr

/-- The text of a sign. -/
def Sign.text : Sign → List Char
  | .none => []
  | .plus => ['+']
  | .minus => ['-']

/-- The three forms of an integer literal. -/
inductive Radix where
  | decimal
  | octal
  | hexadecimal
  deriving DecidableEq, Repr

/-- The base of each form. -/
def Radix.base : Radix → Nat
  | .decimal => 10
  | .octal => 8
  | .hexadecimal => 16

/-- What each form writes in front of its digits: nothing, `0`, and `0x` or `0X`. -/
def Radix.introducer (upperX : Bool) : Radix → List Char
  | .decimal => []
  | .octal => ['0']
  | .hexadecimal => ['0', if upperX then 'X' else 'x']

/-- An integer literal: an optional sign, then a decimal literal (digits, the first one not
`0`), an octal literal (`0` and octal digits) or a hexadecimal literal (`0x` or `0X` and at
least one hexadecimal digit of either case). -/
structure IntLiteral where
  sign : Sign
  radix : Radix
  upperX : Bool
  digits : List Char
  deriving DecidableEq, Repr

/-- The digits of the literal are digits of its base, and there are as many as its form
asks for. -/
def IntLiteral.wellFormed (L : IntLiteral) : Bool :=
  L.digits.all (fun c => (digitInBase L.radix.base c).isSome) &&
  match L.radix with
  | .decimal => !L.digits.isEmpty && L.digits.head? != some '0'
  | .octal => true
  | .hexadecimal => !L.digits.isEmpty

/-- The text of the literal. -/
def IntLiteral.text (L : IntLiteral) : List Char :=
  L.sign.text ++ (L.radix.introducer L.upperX ++ L.digits)

/-- Positional value of a list of digits, the most significant first. -/
def positional (base : Nat) : List Nat → Nat
  | [] => 0
  | d :: ds => d * base ^ ds.length + positional base ds

/-- The magnitude of the literal: the positional value of its digits in its base. -/
def IntLiteral.magnitude (L : IntLiteral) : Nat :=
  positional L.radix.base (L.digits.map fun c => (digitValue c).getD 0)

/-- The mathematical value of the literal. -/
def IntLiteral.value (L : IntLiteral) : Int :=
  match L.sign with
  | .minus => -(L.magnitude : Int)
  | _ => (L.magnitude : Int)

/-- The decimal text form of an integer: for a negative one `-`, then the decimal digits of
its magnitude without leading zeros, as `std::to_string` writes it. -/
def decimalText (n : Int) : List Char :=
  if n < 0 then '-' :: Nat.toDigits 10 n.natAbs else Nat.toDigits 10 n.toNat

/-- What ISO C++ fixes about the answers of the type traits, for every type: the categories
integral, floating point and enumeration exclude one another; `bool` is integral; an
integral type is either signed or unsigned; nothing converts a `std::string` to an
enumeration. -/
def TypeTraits.wellFormed (t : TypeTraits) : Bool :=
  !(t.is_integral && t.is_floating_point) && !(t.is_integral && t.is_enum) &&
  !(t.is_floating_point && t.is_enum) &&
  (!t.is_bool || t.is_integral) &&
  (!t.is_integral || (t.is_signed != t.is_unsigned)) &&
  (!t.is_enum || (!t.is_assignable_string && !t.is_constructible_string))

/-- The categories of the capability classifier, in the documented priority order. -/
def priorityOrder : List Strategy :=
  [.signed_integral, .unsigned_integral, .boolean, .floating, .enumeration,
    .string_assignable, .string_constructible, .from_double_or_int, .from_int, .from_double,
    .stream]

/-- Whether a category of the capability classifier applies to a type, taken on its own:
the integral categories have `bool` and the enumerations carved out, and stream extraction
is the fallback. -/
def Strategy.applies (t : TypeTraits) : Strategy → Bool
  | .signed_integral => t.is_integral && t.is_signed && !t.is_bool && !t.is_enum
  | .unsigned_integral => t.is_integral && t.is_unsigned && !t.is_bool && !t.is_enum
  | .boolean => t.is_bool
  | .floating => t.is_floating_point
  | .enumeration => t.is_enum
  | .string_assignable => t.is_assignable_string
  | .string_constructible => t.is_constructible_string
  | .from_double_or_int => t.is_direct_constructible_int && t.is_direct_constructible_double
  | .from_int => t.is_direct_constructible_int
  | .from_double => t.is_direct_constructible_double
  | .stream => true

/-- The capability classifier of the specification: the first category that applies, in
the priority order. -/
def classify (t : TypeTraits) : Option Strategy :=
  priorityOrder.find? (Strategy.applies t)

/-- The answers of the type traits for `int`. -/
def traitsInt : TypeTraits :=
  { is_integral := true, is_signed := true, is_unsigned := false, is_bool := false,
    is_floating_point := false, is_enum := false, is_assignable_string := false,
    is_constructible_string := false, is_direct_constructible_double := false,
    is_direct_constructible_int := true }

/-- The answers of the type traits for `bool`: an integral type, and unsigned. -/
def traitsBool : TypeTraits :=
  { is_integral := true, is_signed := false, is_unsigned := true, is_bool := true,
    is_floating_point := false, is_enum := false, is_assignable_string := false,
    is_constructible_string := false, is_direct_constructible_double := false,
    is_direct_constructible_int := false }

/-- The answers of the type traits for a scoped enumeration: not integral, neither signed
nor unsigned. -/
def traitsEnum : TypeTraits :=
  { is_integral := false, is_signed := false, is_unsigned := false, is_bool := false,
    is_floating_point := false, is_enum := true, is_assignable_string := false,
    is_constructible_string := false, is_direct_constructible_double := false,
    is_direct_constructible_int := false }

/-- The answers of the type traits for `std::string`. -/
def traitsString : TypeTraits :=
  { is_integral := false, is_signed := false, is_unsigned := false, is_bool := false,
    is_floating_point := false, is_enum := false, is_assignable_string := true,
    is_constructible_string := true, is_direct_constructible_double := false,
    is_direct_constructible_int := false }

/-- The answers of the type traits for a class with a constructor from `double` and one
from `int`, and no conversion from `std::string`. -/
def traitsNumberClass : TypeTraits :=
  { is_integral := false, is_signed := false, is_unsigned := false, is_bool := false,
    is_floating_point := false, is_enum := false, is_assignable_string := false,
    is_constructible_string := false, is_direct_constructible_double := true,
    is_direct_constructible_int := true }

/-- The value of a magnitude under a sign. -/
def Sign.apply (sign : Sign) (magnitude : Nat) : Int :=
  match sign with
  | .minus => -(magnitude : Int)
  | _ => (magnitude : Int)

/-- The answers of the type traits for a container of integers of the standard library,
`std::vector<int>`, `std::set<int>` or `std::list<int>`: a class type, with no conversion
from `std::string`, direct-constructible from `int` through its initializer-list
constructor, and not from `double`, which narrows. -/
def traitsContainer : TypeTraits :=
  { is_integral := false, is_signed := false, is_unsigned := false, is_bool := false,
    is_floating_point := false, is_enum := false, is_assignable_string := false,
    is_constructible_string := false, is_direct_constructible_double := false,
    is_direct_constructible_int := true }

/-- What ISO C++ fixes about the answers of the type traits, with one more fact: `bool` is
an unsigned type. -/
def TypeTraits.wellFormedBool (t : TypeTraits) : Bool :=
  t.wellFormed && (!t.is_bool || t.is_unsigned)

/-- The tag that goes with each conversion strategy in the code: the strategy for `bool`
goes with `UINT`. -/
def tagOfStrategy : Strategy → TypeNameOverload
  | .signed_integral => .INT
  | .unsigned_integral => .UINT
  | .boolean => .UINT
  | .floating => .FLOAT
  | .enumeration => .ENUM
  | _ => .TEXT

/-- An error built from a message carries the name and the exit code of its kind: its name
is the identifier of the kind, its message the message given, and its exit code the integer
value of the enumerator of `ExitCodes` with that identifier. -/
def carriesKind (ctor : List Char → Error) (kind : ExitCodes) : Prop :=
  ∀ msg : List Char,
    (ctor msg).get_name = kind.identifier ∧ (ctor msg).what = msg ∧
      (ctor msg).get_exit_code = kind.toInt

/-- What ISO C++ fixes about the answers of the type traits that `type_name` reads: the
categories integral, floating point and enumeration exclude one another; an integral type
is either signed or unsigned; a `std::vector` is a class, in none of the three
categories. -/
def tagTraitsAllowed (t : TypeTraits) (is_vector : Bool) : Bool :=
  !(t.is_integral && t.is_floating_point) && !(t.is_integral && t.is_enum) &&
  !(t.is_floating_point && t.is_enum) &&
  (!t.is_integral || (t.is_signed != t.is_unsigned)) &&
  (!is_vector || (!t.is_integral && !t.is_floating_point && !t.is_enum))

/-! ## Theorems -/

/-- When `stoll` returns, the index it reports is the length of the subject sequence. -/
theorem stoll_ok_consumed {s : List Char} {b : Nat} {v : Int} {n : Nat}
    (h : stoll s b = .ok (v, n)) : ∃ sub, strtoSubject b s = some sub ∧ sub.consumed = n := by
  unfold stoll at h
  cases hs : strtoSubject b s with
  | none => rw [hs] at h; cases h
  | some sub =>
    rw [hs] at h
    simp only [] at h
    split_ifs at h <;> cases h <;> exact ⟨sub, rfl, rfl⟩

/-- When `stoull` returns, the index it reports is the length of the subject sequence. -/
theorem stoull_ok_consumed {s : List Char} {b : Nat} {v n : Nat}
    (h : stoull s b = .ok (v, n)) : ∃ sub, strtoSubject b s = some sub ∧ sub.consumed = n := by
  unfold stoull at h
  cases hs : strtoSubject b s with
  | none => rw [hs] at h; cases h
  | some sub =>
    rw [hs] at h
    simp only [] at h
    split_ifs at h <;> cases h <;> exact ⟨sub, rfl, rfl⟩

/-- The signed overload catches both exceptions of `std::stoll`: it always returns. -/
theorem lexical_cast_signed_returns (w : Nat) (input : List Char) (output : Int) :
    ∃ r, lexical_cast_signed w input output = .ok r := by
  unfold lexical_cast_signed
  cases hp : stoll input 0 with
  | error e => cases e <;> exact ⟨_, rfl⟩
  | ok p => exact ⟨_, rfl⟩

/-- The unsigned overload catches both exceptions of `std::stoull`: it always returns. -/
theorem lexical_cast_unsigned_returns (w : Nat) (input : List Char) (output : Nat) :
    ∃ r, lexical_cast_unsigned w input output = .ok r := by
  unfold lexical_cast_unsigned
  split
  · exact ⟨_, rfl⟩
  · cases hp : stoull input 0 with
    | error e => cases e <;> exact ⟨_, rfl⟩
    | ok p => exact ⟨_, rfl⟩

/-- C3. Partial-token rejection: on a token that the integer parse does not consume
entirely, both integral overloads of `lexical_cast` return false, for every width and every
prior value of the output. -/
theorem lexical_cast_partial_token (w : Nat) (input : List Char) (outS : Int) (outU : Nat)
    (h : ¬ consumedEntirely input) :
    (∃ o, lexical_cast_signed w input outS = .ok (false, o)) ∧
    (∃ o, lexical_cast_unsigned w input outU = .ok (false, o)) := by
  have key : ∀ sub, strtoSubject 0 input = some sub → (sub.consumed == input.length) = false := by
    intro sub hs
    simp only [beq_eq_false_iff_ne, ne_eq]
    exact fun hc => h ⟨sub, hs, hc⟩
  constructor
  · unfold lexical_cast_signed
    cases hp : stoll input 0 with
    | error e => cases e <;> exact ⟨outS, rfl⟩
    | ok p =>
      obtain ⟨v, n⟩ := p
      obtain ⟨sub, hs, hn⟩ := stoll_ok_consumed hp
      have := key sub hs
      rw [hn] at this
      simp [this]
  · unfold lexical_cast_unsigned
    split
    · exact ⟨outU, rfl⟩
    · cases hp : stoull input 0 with
      | error e => cases e <;> exact ⟨outU, rfl⟩
      | ok p =>
        obtain ⟨v, n⟩ := p
        obtain ⟨sub, hs, hn⟩ := stoull_ok_consumed hp
        have := key sub hs
        rw [hn] at this
        simp [this]

/-- C3, at the tokens `12abc` (a literal followed by more characters) and `hello` (no
literal at all), into a 32-bit destination. -/
theorem lexical_cast_partial_token_witness :
    ¬ consumedEntirely "12abc".toList ∧
    ((∃ o, lexical_cast_signed 32 "12abc".toList 0 = .ok (false, o)) ∧
      (∃ o, lexical_cast_unsigned 32 "12abc".toList 0 = .ok (false, o))) ∧
    ¬ consumedEntirely "hello".toList ∧
    ((∃ o, lexical_cast_signed 32 "hello".toList 0 = .ok (false, o)) ∧
      (∃ o, lexical_cast_unsigned 32 "hello".toList 0 = .ok (false, o))) :=
  have h : ¬ consumedEntirely "12abc".toList := by
    rintro ⟨sub, hs, hc⟩
    have e : strtoSubject 0 "12abc".toList = some ⟨false, 12, 2⟩ := by decide
    rw [e] at hs
    cases hs
    revert hc
    decide
  have h2 : ¬ consumedEntirely "hello".toList := by
    rintro ⟨sub, hs, _⟩
    have e : strtoSubject 0 "hello".toList = none := by decide
    rw [e] at hs
    cases hs
  ⟨h, lexical_cast_partial_token 32 "12abc".toList 0 0 h, h2,
    lexical_cast_partial_token 32 "hello".toList 0 0 h2⟩

/-- C4. Unsigned rejection by first character: a token whose first character is `-` makes
the unsigned overload return false with the output as it was, for every width. -/
theorem lexical_cast_unsigned_minus_first (w : Nat) (rest : List Char) (output : Nat) :
    lexical_cast_unsigned w ('-' :: rest) output = .ok (false, output) := by
  simp [lexical_cast_unsigned]

/-- C5. At the token ` -1` (a blank, then `-1`) the 64-bit unsigned overload returns true
with the wrapped value `2 ^ 64 - 1`: the test of the first character does not see a minus
sign that follows white space. A negative literal that wraps to a small value, as
` -18446744073709551615` wraps to `1`, is accepted at every width. -/
theorem lexical_cast_unsigned_blank_minus_one :
    lexical_cast_unsigned 64 " -1".toList 0 = .ok (true, 18446744073709551615) ∧
    lexical_cast_unsigned 8 " -18446744073709551615".toList 0 = .ok (true, 1) ∧
    lexical_cast_unsigned 32 " -18446744073709551615".toList 0 = .ok (true, 1) := by
  decide

/-- C7. At the token `99999999999999999999` the `bool` overload does not return: the
`std::out_of_range` that `std::stoll` raises inside `to_flag_value` leaves `lexical_cast`,
whose only `catch` clause is for `std::invalid_argument`. -/
theorem lexical_cast_bool_out_of_range_escapes :
    lexical_cast_bool "99999999999999999999".toList false = .error .out_of_range := by
  decide

/-- A token of one character is mapped by the `switch` on its lower-cased character. -/
theorem to_flag_value_singleton (c : Char) : to_flag_value [c] = flagOfChar c.toLower := by
  simp [to_flag_value, trueString, falseString, to_lower]

/-- C9. Single-character flag tokens: with `l` the lower-cased character, `to_flag_value`
returns `-1` for `l` in `0 f n -`, `+1` for `l` in `1 t y +`, the digit's value for `l` in
`2`..`9`, and raises `invalid_argument` for every other character; it fails exactly when
`l` is outside these sets. -/
theorem to_flag_value_single_char (c : Char) :
    (c.toLower ∈ ['0', 'f', 'n', '-'] → to_flag_value [c] = .ok (-1)) ∧
    (c.toLower ∈ ['1', 't', 'y', '+'] → to_flag_value [c] = .ok 1) ∧
    (∀ d : Nat, 2 ≤ d → d ≤ 9 → c.toLower = Nat.digitChar d →
      to_flag_value [c] = .ok (d : Int)) ∧
    (c.toLower ∉ ['0', 'f', 'n', '-', '1', 't', 'y', '+', '2', '3', '4', '5', '6', '7', '8', '9'] →
      to_flag_value [c] = .error .invalid_argument) ∧
    ((∃ e, to_flag_value [c] = .error e) ↔
      c.toLower ∉ ['0', 'f', 'n', '-', '1', 't', 'y', '+', '2', '3', '4', '5', '6', '7', '8', '9']) := by
  rw [to_flag_value_singleton]
  generalize c.toLower = l
  refine ⟨?_, ?_, ?_, ?_, ?_⟩
  · intro h
    simp only [List.mem_cons, List.mem_singleton, List.not_mem_nil, or_false] at h
    simp [flagOfChar, h]
  · intro h
    simp only [List.mem_cons, List.mem_singleton, List.not_mem_nil, or_false] at h
    rcases h with h | h | h | h <;> subst h <;> decide
  · intro d h2 h9 hd
    subst hd
    interval_cases d <;> decide
  · intro h
    simp only [List.mem_cons, List.mem_singleton, List.not_mem_nil, or_false, not_or] at h
    simp [flagOfChar, h]
  · simp only [List.mem_cons, List.mem_singleton, List.not_mem_nil, or_false, not_or]
    unfold flagOfChar
    split_ifs with h1 h2 h3
    · simp; tauto
    · simp; tauto
    · simp; tauto
    · simp; tauto

/-- C9, at the tokens `-`, `Y`, `5` and `Q`. -/
theorem to_flag_value_single_char_witness :
    to_flag_value "-".toList = .ok (-1) ∧ to_flag_value "Y".toList = .ok 1 ∧
    to_flag_value "5".toList = .ok 5 ∧ to_flag_value "Q".toList = .error .invalid_argument :=
  ⟨(to_flag_value_single_char '-').1 (by decide),
    (to_flag_value_single_char 'Y').2.1 (by decide),
    (to_flag_value_single_char '5').2.2.1 5 (by decide) (by decide) (by decide),
    (to_flag_value_single_char 'Q').2.2.2.1 (by decide)⟩

/-- C10. Flag word vocabulary: a token whose lower-cased form is one of `true`, `on`,
`yes`, `enable` maps to `+1`, and one whose lower-cased form is one of `false`, `off`, `no`,
`disable` maps to `-1`. -/
theorem to_flag_value_vocabulary (val : List Char) :
    (to_lower val ∈ ["true".toList, "on".toList, "yes".toList, "enable".toList] →
      to_flag_value val = .ok 1) ∧
    (to_lower val ∈ ["false".toList, "off".toList, "no".toList, "disable".toList] →
      to_flag_value val = .ok (-1)) := by
  have ht : to_lower trueString = trueString := by decide
  have hf : to_lower falseString = falseString := by decide
  constructor
  · intro h
    by_cases h1 : val = trueString
    · subst h1; decide
    · by_cases h2 : val = falseString
      · rw [h2, hf] at h
        exact absurd h (by decide)
      · unfold to_flag_value
        simp only [h1, h2, if_false]
        simp only [String.toList, List.mem_cons, List.mem_singleton, List.not_mem_nil,
          or_false] at h
        rcases h with h | h | h | h <;> rw [h] <;> rfl
  · intro h
    by_cases h1 : val = trueString
    · rw [h1, ht] at h
      exact absurd h (by decide)
    · by_cases h2 : val = falseString
      · subst h2; decide
      · unfold to_flag_value
        simp only [h1, h2, if_false]
        simp only [String.toList, List.mem_cons, List.mem_singleton, List.not_mem_nil,
          or_false] at h
        rcases h with h | h | h | h <;> rw [h] <;> rfl

/-- C10, at the tokens `ENABLE` and `Off`. -/
theorem to_flag_value_vocabulary_witness :
    to_flag_value "ENABLE".toList = .ok 1 ∧ to_flag_value "Off".toList = .ok (-1) :=
  ⟨(to_flag_value_vocabulary "ENABLE".toList).1 (by decide),
    (to_flag_value_vocabulary "Off".toList).2 (by decide)⟩

/-! ### The integer parse on a literal -/

theorem digitInBase_eq_some {b : Nat} {c : Char} {d : Nat} (h : digitInBase b c = some d) :
    digitValue c = some d ∧ d < b := by
  unfold digitInBase at h
  cases hv : digitValue c with
  | none => rw [hv] at h; cases h
  | some v =>
    rw [hv] at h
    simp only [] at h
    split_ifs at h with hlt
    cases h
    exact ⟨rfl, hlt⟩

theorem digitInBase_of_digitValue_none {b : Nat} {c : Char} (h : digitValue c = none) :
    digitInBase b c = none := by
  simp [digitInBase, h]

theorem isSome_digitInBase {b : Nat} {c : Char} (h : (digitInBase b c).isSome = true) :
    digitInBase b c = some ((digitValue c).getD 0) := by
  obtain ⟨d, hd⟩ := Option.isSome_iff_exists.mp h
  rw [hd, (digitInBase_eq_some hd).1]
  rfl

/-- A digit is not white space and not a sign. -/
theorem digit_not_space_not_sign {b : Nat} {c : Char} (h : (digitInBase b c).isSome = true) :
    isspace c = false ∧ c ≠ '-' ∧ c ≠ '+' := by
  have hv : digitValue c ≠ none := by
    intro hn
    rw [digitInBase_of_digitValue_none hn] at h
    cases h
  refine ⟨?_, ?_, ?_⟩
  · by_contra hs
    simp only [Bool.not_eq_false] at hs
    simp only [isspace, Bool.or_eq_true, beq_iff_eq] at hs
    rcases hs with ((((hs | hs) | hs) | hs) | hs) | hs <;> subst hs <;> exact hv (by decide)
  · intro hs; subst hs; exact hv (by decide)
  · intro hs; subst hs; exact hv (by decide)

/-- The digit loop reads a run of digits to its end and accumulates left to right. -/
theorem scanDigits_append (b : Nat) (ds rest : List Char) (acc k : Nat)
    (h : ∀ c ∈ ds, (digitInBase b c).isSome = true) :
    scanDigits b (ds ++ rest) acc k =
      scanDigits b rest (ds.foldl (fun a c => a * b + (digitValue c).getD 0) acc)
        (k + ds.length) := by
  induction ds generalizing acc k with
  | nil => simp
  | cons c cs ih =>
    have hc := isSome_digitInBase (h c (List.mem_cons_self _ _))
    have step : scanDigits b (c :: (cs ++ rest)) acc k =
        scanDigits b (cs ++ rest) (acc * b + (digitValue c).getD 0) (k + 1) := by
      simp only [scanDigits, hc]
    rw [List.cons_append, step, ih _ _ (fun x hx => h x (List.mem_cons_of_mem _ hx))]
    simp only [List.foldl_cons, List.length_cons]
    congr 1
    omega

/-- Accumulating left to right gives the positional value. -/
theorem foldl_digits_eq_positional (b : Nat) (ds : List Char) (acc : Nat) :
    ds.foldl (fun a c => a * b + (digitValue c).getD 0) acc =
      acc * b ^ ds.length + positional b (ds.map fun c => (digitValue c).getD 0) := by
  induction ds generalizing acc with
  | nil => simp [positional]
  | cons c cs ih =>
    simp only [List.foldl_cons, List.length_cons, List.map_cons, positional, ih]
    rw [List.length_map]
    ring

/-- The digit loop on a run of digits alone. -/
theorem scanDigits_all (b : Nat) (ds : List Char)
    (h : ∀ c ∈ ds, (digitInBase b c).isSome = true) :
    scanDigits b ds 0 0 =
      (positional b (ds.map fun c => (digitValue c).getD 0), ds.length) := by
  have := scanDigits_append b ds [] 0 0 h
  simp only [List.append_nil, scanDigits, Nat.zero_add] at this
  rw [this, foldl_digits_eq_positional]
  simp

theorem hexIntroduced_of_ne_zero {c : Char} (t : List Char) (h : c ≠ '0') :
    hexIntroduced (c :: t) = false := by
  match t with
  | [] => rfl
  | [_] => rfl
  | _ :: _ :: _ => simp [hexIntroduced, h]

theorem hexIntroduced_zero_octal (ds : List Char)
    (h : ∀ c ∈ ds, (digitInBase 8 c).isSome = true) : hexIntroduced ('0' :: ds) = false := by
  match ds, h with
  | [], _ => rfl
  | [_], _ => rfl
  | c1 :: _ :: _, h =>
    have h1 := h c1 (List.mem_cons_self _ _)
    have hx : c1 ≠ 'x' := by intro e; subst e; revert h1; decide
    have hX : c1 ≠ 'X' := by intro e; subst e; revert h1; decide
    simp [hexIntroduced, hx, hX]

/-- The text after the sign of a literal: what base detection and the digit loop make of
it. -/
theorem detect_scan_literal (L : IntLiteral) (h : L.wellFormed = true) :
    scanDigits (detectBase 0 (L.radix.introducer L.upperX ++ L.digits)).1
        (detectBase 0 (L.radix.introducer L.upperX ++ L.digits)).2.2 0 0 =
      (L.magnitude, (L.radix.introducer L.upperX ++ L.digits).length -
        (detectBase 0 (L.radix.introducer L.upperX ++ L.digits)).2.1) ∧
    (detectBase 0 (L.radix.introducer L.upperX ++ L.digits)).2.1 <
      (L.radix.introducer L.upperX ++ L.digits).length := by
  obtain ⟨sign, radix, upperX, digits⟩ := L
  simp only [IntLiteral.wellFormed, Bool.and_eq_true, List.all_eq_true] at h
  obtain ⟨hall, hform⟩ := h
  simp only [IntLiteral.magnitude]
  cases radix with
  | decimal =>
    simp only [Radix.introducer, Radix.base, List.nil_append] at *
    match digits, hall, hform with
    | c :: cs, hall, hform =>
      have hc : c ≠ '0' := by simpa using hform
      have hdb : detectBase 0 (c :: cs) = (10, 0, c :: cs) := by
        simp [detectBase, hexIntroduced_of_ne_zero cs hc, zeroLed, hc]
      rw [hdb]
      exact ⟨by simpa using scanDigits_all 10 (c :: cs) hall, by simp⟩
  | octal =>
    simp only [Radix.introducer, Radix.base, List.singleton_append] at *
    have hdb : detectBase 0 ('0' :: digits) = (8, 0, '0' :: digits) := by
      simp [detectBase, hexIntroduced_zero_octal digits hall, zeroLed]
    rw [hdb]
    have hall0 : ∀ c ∈ '0' :: digits, (digitInBase 8 c).isSome = true := by
      intro c hc
      rcases List.mem_cons.mp hc with e | e
      · subst e; decide
      · exact hall c e
    refine ⟨?_, by simp⟩
    rw [scanDigits_all 8 _ hall0]
    have h0 : (digitValue '0').getD 0 = 0 := by decide
    simp [positional, h0]
  | hexadecimal =>
    simp only [Radix.introducer, Radix.base] at *
    match digits, hall, hform with
    | c :: cs, hall, hform =>
      have hc := hall c (List.mem_cons_self _ _)
      have hdb : detectBase 0 (['0', if upperX = true then 'X' else 'x'] ++ c :: cs) =
          (16, 2, c :: cs) := by
        cases upperX <;> simp [detectBase, hexIntroduced, hc]
      rw [hdb]
      exact ⟨by simpa using scanDigits_all 16 (c :: cs) hall, by simp⟩

/-- The text after the sign of a literal starts with a character that is neither white
space nor a sign. -/
theorem literal_body_head (L : IntLiteral) (h : L.wellFormed = true) :
    ∃ c cs, L.radix.introducer L.upperX ++ L.digits = c :: cs ∧ isspace c = false ∧
      c ≠ '-' ∧ c ≠ '+' := by
  obtain ⟨sign, radix, upperX, digits⟩ := L
  simp only [IntLiteral.wellFormed, Bool.and_eq_true, List.all_eq_true] at h
  obtain ⟨hall, hform⟩ := h
  cases radix with
  | decimal =>
    match digits, hall, hform with
    | c :: cs, hall, _ =>
      exact ⟨c, cs, rfl, digit_not_space_not_sign (hall c (List.mem_cons_self _ _))⟩
  | octal => exact ⟨'0', digits, rfl, by decide⟩
  | hexadecimal => exact ⟨'0', _, rfl, by decide⟩

/-- The parse `strtoll` and `strtoull` share reads a literal to its end: its sign, its
magnitude, and all of its characters. -/
theorem strtoSubject_literal (L : IntLiteral) (h : L.wellFormed = true) :
    strtoSubject 0 L.text =
      some ⟨decide (L.sign = .minus), L.magnitude, L.text.length⟩ := by
  obtain ⟨c, cs, hbody, hsp, hm, hp⟩ := literal_body_head L h
  obtain ⟨hscan, hlt⟩ := detect_scan_literal L h
  rw [hbody] at hscan hlt
  have hsign : ∀ s : Sign, (s.text ++ c :: cs).takeWhile isspace = [] ∧
      (s.text ++ c :: cs).dropWhile isspace = s.text ++ c :: cs ∧
      readSign (s.text ++ c :: cs) = (decide (s = .minus), s.text.length, c :: cs) := by
    intro s
    cases s
    · simp [Sign.text, List.takeWhile, List.dropWhile, hsp, readSign, hm, hp]
    · simp [Sign.text, List.takeWhile, List.dropWhile, readSign, isspace]
    · simp [Sign.text, List.takeWhile, List.dropWhile, readSign, isspace]
  obtain ⟨h1, h2, h3⟩ := hsign L.sign
  unfold strtoSubject
  simp only [IntLiteral.text, hbody, h1, h2, h3, hscan, List.length_nil, List.length_append]
  have hne : ¬ ((c :: cs).length - (detectBase 0 (c :: cs)).2.1 = 0) := by omega
  rw [if_neg hne]
  congr 2
  omega

/-- The cast to a signed type of `w` bits keeps exactly the values of that type. -/
theorem castSigned_eq_iff (w : Nat) (hw : 0 < w) (v : Int) :
    castSigned w v = v ↔ -2 ^ (w - 1) ≤ v ∧ v < 2 ^ (w - 1) := by
  have hpos : (0 : Int) < 2 ^ (w - 1) := by positivity
  have hdouble : (2 : Int) ^ w = 2 * 2 ^ (w - 1) := by
    obtain ⟨k, rfl⟩ : ∃ k, w = k + 1 := ⟨w - 1, by omega⟩
    simp [pow_succ, mul_comm]
  unfold castSigned
  rw [hdouble]
  constructor
  · intro h
    have h0 := Int.emod_nonneg (v + 2 ^ (w - 1)) (by omega : (2 * 2 ^ (w - 1) : Int) ≠ 0)
    have h1 := Int.emod_lt_of_pos (v + 2 ^ (w - 1)) (by omega : (0 : Int) < 2 * 2 ^ (w - 1))
    constructor <;> omega
  · rintro ⟨h0, h1⟩
    rw [Int.emod_eq_of_lt (by omega) (by omega)]
    omega

/-- The cast to an unsigned type of `w` bits keeps exactly the values of that type. -/
theorem castUnsigned_eq_iff (w v : Nat) : castUnsigned w v = v ↔ v < 2 ^ w := by
  unfold castUnsigned
  constructor
  · intro h
    rw [← h]
    exact Nat.mod_lt _ (by positivity)
  · exact Nat.mod_eq_of_lt

/-- The value `strtoll` computes for a literal is its mathematical value. -/
theorem literal_signed_value (L : IntLiteral) :
    (if decide (L.sign = .minus) = true then -(L.magnitude : Int) else (L.magnitude : Int)) =
      L.value := by
  unfold IntLiteral.value
  cases L.sign <;> simp

/-- What `std::stoll` with base `0` returns on a literal. -/
theorem stoll_literal (L : IntLiteral) (h : L.wellFormed = true) :
    stoll L.text 0 =
      if L.value < -(2 ^ 63) ∨ 2 ^ 63 - 1 < L.value then .error .out_of_range
      else .ok (L.value, L.text.length) := by
  unfold stoll
  rw [strtoSubject_literal L h]
  simp only [literal_signed_value]

/-- What `std::stoull` with base `0` returns on a literal without a minus sign. -/
theorem stoull_literal (L : IntLiteral) (h : L.wellFormed = true) (hs : L.sign ≠ .minus) :
    stoull L.text 0 =
      if 2 ^ 64 - 1 < L.magnitude then .error .out_of_range
      else .ok (L.magnitude, L.text.length) := by
  unfold stoull
  rw [strtoSubject_literal L h]
  simp [hs]

/-- A literal whose value fits the destination is coerced to that value. -/
theorem lexical_cast_signed_fits (w : Nat) (hw0 : 0 < w) (hw : w ≤ 64) (L : IntLiteral)
    (hL : L.wellFormed = true) (output : Int)
    (hr : -2 ^ (w - 1) ≤ L.value ∧ L.value < 2 ^ (w - 1)) :
    lexical_cast_signed w L.text output = .ok (true, L.value) := by
  have hle : (2 : Int) ^ (w - 1) ≤ 2 ^ 63 :=
    pow_le_pow_right₀ (by norm_num) (by omega)
  have h64 : ¬ (L.value < -(2 ^ 63) ∨ 2 ^ 63 - 1 < L.value) := by omega
  unfold lexical_cast_signed
  rw [stoll_literal L hL, if_neg h64]
  simp [(castSigned_eq_iff w hw0 L.value).mpr hr]

/-- C2. Signed overflow guard: on a token that is one integer literal of value `v`, the
signed overload into `w` bits (8, 16, 32 or 64) returns true with output `v` when
`-2 ^ (w - 1) ≤ v < 2 ^ (w - 1)` and returns false otherwise; a literal outside the 64-bit
signed range fails for every width, the output as it was. -/
theorem lexical_cast_signed_literal (w : Nat) (hw : w = 8 ∨ w = 16 ∨ w = 32 ∨ w = 64)
    (L : IntLiteral) (hL : L.wellFormed = true) (output : Int) :
    ((-2 ^ (w - 1) ≤ L.value ∧ L.value < 2 ^ (w - 1)) →
      lexical_cast_signed w L.text output = .ok (true, L.value)) ∧
    (¬ (-2 ^ (w - 1) ≤ L.value ∧ L.value < 2 ^ (w - 1)) →
      ∃ o, lexical_cast_signed w L.text output = .ok (false, o)) ∧
    (¬ (-2 ^ 63 ≤ L.value ∧ L.value < 2 ^ 63) →
      lexical_cast_signed w L.text output = .ok (false, output)) := by
  have hw0 : 0 < w := by omega
  have hle : (2 : Int) ^ (w - 1) ≤ 2 ^ 63 := by
    rcases hw with rfl | rfl | rfl | rfl <;> norm_num
  have hcast := castSigned_eq_iff w hw0 L.value
  unfold lexical_cast_signed
  rw [stoll_literal L hL]
  refine ⟨?_, ?_, ?_⟩
  · intro hr
    have h64 : ¬ (L.value < -(2 ^ 63) ∨ 2 ^ 63 - 1 < L.value) := by omega
    rw [if_neg h64]
    simp [hcast.mpr hr]
  · intro hr
    by_cases h64 : L.value < -(2 ^ 63) ∨ 2 ^ 63 - 1 < L.value
    · rw [if_pos h64]; exact ⟨output, rfl⟩
    · rw [if_neg h64]
      have : castSigned w L.value ≠ L.value := fun e => hr (hcast.mp e)
      exact ⟨castSigned w L.value, by simp [this]⟩
  · intro hr
    have h64 : L.value < -(2 ^ 63) ∨ 2 ^ 63 - 1 < L.value := by omega
    rw [if_pos h64]

/-- C2, at the literal `-0x80` into 8 bits (the least value of the type) and at the
literal `128`, which does not fit. -/
theorem lexical_cast_signed_literal_witness :
    ((8 : Nat) = 8 ∨ (8 : Nat) = 16 ∨ (8 : Nat) = 32 ∨ (8 : Nat) = 64) ∧
    (IntLiteral.mk .minus .hexadecimal false ['8', '0']).wellFormed = true ∧
    (IntLiteral.mk .minus .hexadecimal false ['8', '0']).text = "-0x80".toList ∧
    (IntLiteral.mk .minus .hexadecimal false ['8', '0']).value = -128 ∧
    lexical_cast_signed 8 "-0x80".toList 0 = .ok (true, -128) ∧
    lexical_cast_signed 8 "128".toList 0 = .ok (false, -128) :=
  ⟨by decide, by decide, by decide, by decide,
    (lexical_cast_signed_literal 8 (by decide) ⟨.minus, .hexadecimal, false, ['8', '0']⟩
      (by decide) 0).1 (by decide),
    by decide⟩

/-- C6. Unsigned overflow guard: on a token that is one integer literal without a minus
sign, of value `v`, the unsigned overload into `w` bits returns true with output `v` when
`v < 2 ^ w` and returns false otherwise. -/
theorem lexical_cast_unsigned_literal (w : Nat) (hw : w = 8 ∨ w = 16 ∨ w = 32 ∨ w = 64)
    (L : IntLiteral) (hL : L.wellFormed = true) (hs : L.sign ≠ .minus) (output : Nat) :
    (L.value < 2 ^ w → lexical_cast_unsigned w L.text output = .ok (true, L.value.toNat)) ∧
    (¬ L.value < 2 ^ w → ∃ o, lexical_cast_unsigned w L.text output = .ok (false, o)) := by
  have hval : L.value = (L.magnitude : Int) := by
    unfold IntLiteral.value
    cases hsg : L.sign <;> simp_all
  have hle : 2 ^ w ≤ 2 ^ 64 := by
    rcases hw with rfl | rfl | rfl | rfl <;> norm_num
  have hfirst : (!L.text.isEmpty && L.text.head? == some '-') = false := by
    obtain ⟨c, cs, hbody, _, hm, _⟩ := literal_body_head L hL
    unfold IntLiteral.text
    rw [hbody]
    cases hsg : L.sign
    · simp [Sign.text, hm]
    · simp [Sign.text]
    · exact absurd hsg hs
  have hcast := castUnsigned_eq_iff w L.magnitude
  have hlt : (L.value < 2 ^ w) ↔ L.magnitude < 2 ^ w := by
    rw [hval]
    exact_mod_cast Iff.rfl
  unfold lexical_cast_unsigned
  rw [hfirst, stoull_literal L hL hs, hval]
  simp only [Bool.false_eq_true, if_false, Int.toNat_ofNat]
  constructor
  · intro hr
    have hr2 := hlt.mp (by rw [hval]; exact hr)
    have h64 : ¬ (2 ^ 64 - 1 < L.magnitude) := by omega
    rw [if_neg h64]
    simp [hcast.mpr hr2]
  · intro hr
    by_cases h64 : 2 ^ 64 - 1 < L.magnitude
    · rw [if_pos h64]; exact ⟨output, rfl⟩
    · rw [if_neg h64]
      have : castUnsigned w L.magnitude ≠ L.magnitude :=
        fun e => hr (by have := hlt.mpr (hcast.mp e); rwa [hval] at this)
      exact ⟨castUnsigned w L.magnitude, by simp [this]⟩

/-- C6, at the literal `4294967296` (`2 ^ 32`) into 32 bits: the call returns false, it
does not return true with the wrapped value `0`. -/
theorem lexical_cast_unsigned_literal_witness :
    ((32 : Nat) = 8 ∨ (32 : Nat) = 16 ∨ (32 : Nat) = 32 ∨ (32 : Nat) = 64) ∧
    (IntLiteral.mk .none .decimal false "4294967296".toList).wellFormed = true ∧
    (IntLiteral.mk .none .decimal false "4294967296".toList).sign ≠ .minus ∧
    (IntLiteral.mk .none .decimal false "4294967296".toList).text = "4294967296".toList ∧
    ¬ (IntLiteral.mk .none .decimal false "4294967296".toList).value < 2 ^ 32 ∧
    (∃ o, lexical_cast_unsigned 32 "4294967296".toList 7 = .ok (false, o)) :=
  ⟨by decide, by decide, by decide, by decide, by decide,
    (lexical_cast_unsigned_literal 32 (by decide)
      ⟨.none, .decimal, false, "4294967296".toList⟩ (by decide) (by decide) 7).2 (by decide)⟩

/-! ### The decimal text of an integer -/

theorem digitValue_digitChar (d : Nat) (h : d < 10) :
    digitInBase 10 (Nat.digitChar d) = some d ∧ (0 < d → Nat.digitChar d ≠ '0') := by
  interval_cases d <;> decide

/-- The digits `Nat.toDigits` writes in front of `ds`: decimal digits, at least one, the
first not `0` unless the number is zero, and they read back as the number. -/
theorem toDigitsCore_decimal (fuel : Nat) : ∀ (n : Nat) (ds : List Char), n < fuel →
    ∃ pre, Nat.toDigitsCore 10 fuel n ds = pre ++ ds ∧
      (∀ c ∈ pre, (digitInBase 10 c).isSome = true) ∧
      (∃ c cs, pre = c :: cs ∧ (0 < n → c ≠ '0')) ∧
      pre.foldl (fun a c => a * 10 + (digitValue c).getD 0) 0 = n := by
  induction fuel with
  | zero => intro n ds h; omega
  | succ fuel ih =>
    intro n ds h
    have hd := digitValue_digitChar (n % 10) (Nat.mod_lt _ (by norm_num))
    have hv : (digitValue (Nat.digitChar (n % 10))).getD 0 = n % 10 := by
      rw [(digitInBase_eq_some hd.1).1]; rfl
    simp only [Nat.toDigitsCore]
    split_ifs with h0
    · have hn : n % 10 = n := by omega
      refine ⟨[Nat.digitChar (n % 10)], rfl, ?_, ⟨_, [], rfl, ?_⟩, ?_⟩
      · intro c hc
        rw [List.mem_singleton.mp hc, hd.1]; rfl
      · intro hpos
        exact hd.2 (by omega)
      · simp only [List.foldl_cons, List.foldl_nil, hv]; omega
    · obtain ⟨pre, hpre, hall, ⟨c, cs, hcs, hne⟩, hfold⟩ :=
        ih (n / 10) (Nat.digitChar (n % 10) :: ds) (by omega)
      refine ⟨pre ++ [Nat.digitChar (n % 10)], by rw [hpre]; simp, ?_, ?_, ?_⟩
      · intro x hx
        rcases List.mem_append.mp hx with hx | hx
        · exact hall x hx
        · rw [List.mem_singleton.mp hx, hd.1]; rfl
      · exact ⟨c, cs ++ [Nat.digitChar (n % 10)], by rw [hcs]; rfl,
          fun _ => hne (by omega)⟩
      · rw [List.foldl_append, hfold]
        simp only [List.foldl_cons, List.foldl_nil, hv]
        omega

/-- The decimal digits of a positive number form a decimal literal with that value. -/
theorem toDigits_literal (sign : Sign) (n : Nat) (hn : 0 < n) :
    (IntLiteral.mk sign .decimal false (Nat.toDigits 10 n)).wellFormed = true ∧
    (IntLiteral.mk sign .decimal false (Nat.toDigits 10 n)).magnitude = n := by
  obtain ⟨pre, hpre, hall, ⟨c, cs, hcs, hne⟩, hfold⟩ :=
    toDigitsCore_decimal (n + 1) n [] (by omega)
  have hdig : Nat.toDigits 10 n = pre := by
    unfold Nat.toDigits
    rw [hpre, List.append_nil]
  constructor
  · simp only [IntLiteral.wellFormed, Radix.base, hdig, Bool.and_eq_true, List.all_eq_true]
    refine ⟨hall, ?_⟩
    rw [hcs]
    simpa using hne hn
  · simp only [IntLiteral.magnitude, Radix.base, hdig]
    rw [foldl_digits_eq_positional] at hfold
    simpa using hfold

/-- The decimal text of an integer is the text of an integer literal with that value. -/
theorem decimalText_literal (n : Int) :
    ∃ L : IntLiteral, L.wellFormed = true ∧ L.text = decimalText n ∧ L.value = n := by
  rcases lt_trichotomy n 0 with hneg | hzero | hpos
  · obtain ⟨hw, hm⟩ := toDigits_literal .minus n.natAbs (by omega)
    refine ⟨_, hw, ?_, ?_⟩
    · simp [IntLiteral.text, Sign.text, Radix.introducer, decimalText, hneg]
    · simp only [IntLiteral.value, hm]
      omega
  · subst hzero
    exact ⟨⟨.none, .octal, false, []⟩, by decide, by decide, by decide⟩
  · obtain ⟨hw, hm⟩ := toDigits_literal .none n.toNat (by omega)
    refine ⟨_, hw, ?_, ?_⟩
    · simp [IntLiteral.text, Sign.text, Radix.introducer, decimalText, not_lt.mpr hpos.le]
    · simp only [IntLiteral.value, hm]
      omega

/-- C1. Round trip for signed integers: for every signed 32-bit integer `n`, the signed
overload into 32 bits, on the decimal text of `n`, returns true and sets the output to
`n`. -/
theorem lexical_cast_signed_round_trip (n : Int) (hlo : -2 ^ 31 ≤ n) (hhi : n < 2 ^ 31)
    (output : Int) : lexical_cast_signed 32 (decimalText n) output = .ok (true, n) := by
  obtain ⟨L, hw, ht, hv⟩ := decimalText_literal n
  rw [← ht, ← hv]
  exact lexical_cast_signed_fits 32 (by norm_num) (by norm_num) L hw output
    (by rw [hv]; exact ⟨hlo, hhi⟩)

/-- C1, at the least 32-bit integer, whose decimal text is `-2147483648`. -/
theorem lexical_cast_signed_round_trip_witness :
    decimalText (-2147483648) = "-2147483648".toList ∧
    lexical_cast_signed 32 (decimalText (-2147483648)) 0 = .ok (true, -2147483648) :=
  ⟨by decide, lexical_cast_signed_round_trip (-2147483648) (by decide) (by decide) 0⟩

/-! ### The assignment adapter -/

/-- C8, as stated, fails: on `12abc`, `lexical_assign<T, T>` into a 32-bit signed or
unsigned output that held `0` returns false and leaves `12` in the output, and on the
out-of-range literal `300` into an 8-bit signed output it returns false and leaves `44`. -/
theorem lexical_assign_same_failure_overwrites :
    lexical_assign_same (lexical_cast_signed 32) "12abc".toList 0 = .ok (false, 12) ∧
    lexical_assign_same (lexical_cast_unsigned 32) "12abc".toList 0 = .ok (false, 12) ∧
    lexical_assign_same (lexical_cast_signed 8) "300".toList 0 = .ok (false, 44) := by
  decide

/-- C8, amended. When `lexical_assign<T, T>` returns false for an integral `T` of `w` bits,
the output holds its prior value if `std::stoll` (`std::stoull`) raised, or if `T` is
unsigned and the token starts with `-`; otherwise it holds the 64-bit parse result cast to
`T`. -/
theorem lexical_assign_same_failure_output (w : Nat) (input : List Char) (priorS oS : Int)
    (priorU oU : Nat) :
    (lexical_assign_same (lexical_cast_signed w) input priorS = .ok (false, oS) →
      oS = match stoll input 0 with
        | .ok (output_ll, _) => castSigned w output_ll
        | .error _ => priorS) ∧
    (lexical_assign_same (lexical_cast_unsigned w) input priorU = .ok (false, oU) →
      oU = if input.head? = some '-' then priorU else
        match stoull input 0 with
        | .ok (output_ll, _) => castUnsigned w output_ll
        | .error _ => priorU) := by
  constructor
  · unfold lexical_assign_same lexical_cast_signed
    cases hp : stoll input 0 with
    | error e =>
      cases e <;> (intro h; cases h; rfl)
    | ok p =>
      obtain ⟨v, n⟩ := p
      intro h
      simp only [Except.ok.injEq, Prod.mk.injEq] at h
      exact h.2.symm
  · unfold lexical_assign_same lexical_cast_unsigned
    by_cases hm : input.head? = some '-'
    · have hne : (!input.isEmpty && input.head? == some '-') = true := by
        cases input with
        | nil => cases hm
        | cons c cs => simpa using hm
      rw [if_pos hne, if_pos hm]
      intro h
      cases h
      rfl
    · have hne : ¬ ((!input.isEmpty && input.head? == some '-') = true) := by
        simp only [Bool.and_eq_true, beq_iff_eq, not_and]
        exact fun _ => hm
      rw [if_neg hne, if_neg hm]
      cases hp : stoull input 0 with
      | error e =>
        cases e <;> (intro h; cases h; rfl)
      | ok p =>
        obtain ⟨v, n⟩ := p
        intro h
        simp only [Except.ok.injEq, Prod.mk.injEq] at h
        exact h.2.symm

/-- C8 amended, at the tokens `12abc` (parsed, not consumed entirely: the output is `12`)
and `hello` (the parse raises: the output keeps its prior value `7`). -/
theorem lexical_assign_same_failure_output_witness :
    lexical_assign_same (lexical_cast_signed 32) "12abc".toList 7 = .ok (false, 12) ∧
    (12 : Int) = (match stoll "12abc".toList 0 with
      | .ok (output_ll, _) => castSigned 32 output_ll
      | .error _ => 7) ∧
    lexical_assign_same (lexical_cast_unsigned 32) "hello".toList 7 = .ok (false, 7) ∧
    (7 : Nat) = (if "hello".toList.head? = some '-' then 7 else
      match stoull "hello".toList 0 with
      | .ok (output_ll, _) => castUnsigned 32 output_ll
      | .error _ => 7) :=
  ⟨by decide,
    (lexical_assign_same_failure_output 32 "12abc".toList 7 12 0 0).1 (by decide),
    by decide,
    (lexical_assign_same_failure_output 32 "hello".toList 0 0 7 7).2 (by decide)⟩

/-! ### The flag mapper and the `bool` overload -/

/-- C11. At the token `12abc`, of five characters and no vocabulary word, `to_flag_value`
returns the value `12` of the numeric prefix, and the `bool` overload of `lexical_cast`
returns true with output `true`: `std::stoll(val)` is called without an index, so nothing
tests that the token was read to its end. -/
theorem to_flag_value_numeric_prefix_accepted :
    to_flag_value "12abc".toList = .ok 12 ∧
    lexical_cast_bool "12abc".toList false = .ok (true, true) ∧
    lexical_cast_signed 64 "12abc".toList 0 = .ok (false, 12) := by
  decide

/-- C12. Boolean coercion: when `to_flag_value` returns a magnitude the `bool` overload
returns true with output `magnitude > 0`; when `to_flag_value` raises `invalid_argument` it
returns false, the output as it was; and it returns true exactly when `to_flag_value`
returns. -/
theorem lexical_cast_bool_delegates (input : List Char) (output : Bool) :
    (∀ magnitude, to_flag_value input = .ok magnitude →
      lexical_cast_bool input output = .ok (true, decide (magnitude > 0))) ∧
    (to_flag_value input = .error .invalid_argument →
      lexical_cast_bool input output = .ok (false, output)) ∧
    ((∃ o, lexical_cast_bool input output = .ok (true, o)) ↔
      ∃ magnitude, to_flag_value input = .ok magnitude) := by
  unfold lexical_cast_bool
  cases h : to_flag_value input with
  | ok m =>
    refine ⟨?_, ?_, ?_⟩
    · intro m2 h2; cases h2; rfl
    · intro h2; cases h2
    · exact ⟨fun _ => ⟨m, rfl⟩, fun _ => ⟨_, rfl⟩⟩
  | error e =>
    refine ⟨?_, ?_, ?_⟩
    · intro m2 h2; cases h2
    · intro h2; cases h2; rfl
    · constructor
      · rintro ⟨o, ho⟩
        cases e <;> cases ho
      · rintro ⟨m, hm⟩
        cases hm

/-- C12, at the tokens `yes`, `disable`, `0` and `maybe`. -/
theorem lexical_cast_bool_delegates_witness :
    lexical_cast_bool "yes".toList false = .ok (true, true) ∧
    lexical_cast_bool "disable".toList true = .ok (true, false) ∧
    lexical_cast_bool "0".toList true = .ok (true, false) ∧
    lexical_cast_bool "maybe".toList true = .ok (false, true) :=
  ⟨(lexical_cast_bool_delegates "yes".toList false).1 1 (by decide),
    by simpa using (lexical_cast_bool_delegates "disable".toList true).1 (-1) (by decide),
    by simpa using (lexical_cast_bool_delegates "0".toList true).1 (-1) (by decide),
    (lexical_cast_bool_delegates "maybe".toList true).2.1 (by decide)⟩

/-! ### The flag vector aggregator -/

/-- Reducing a summand into the signed range before an addition does not change the
reduced sum. -/
theorem castSigned_add_castSigned (w : Nat) (a b : Int) :
    castSigned w (castSigned w a + b) = castSigned w (a + b) := by
  unfold castSigned
  have e : (a + 2 ^ (w - 1)) % 2 ^ w - 2 ^ (w - 1) + b + 2 ^ (w - 1) =
      (a + 2 ^ (w - 1)) % 2 ^ w + b := by ring
  rw [e, Int.emod_add_emod]
  have e2 : a + 2 ^ (w - 1) + b = a + b + 2 ^ (w - 1) := by ring
  rw [e2]

/-- The cast to a signed type of `w` bits gives the value of that type that differs from
the operand by a multiple of `2 ^ w`. -/
theorem castSigned_spec (w : Nat) (hw : 0 < w) (v : Int) :
    (-2 ^ (w - 1) ≤ castSigned w v ∧ castSigned w v < 2 ^ (w - 1)) ∧
    (2 ^ w : Int) ∣ (castSigned w v - v) := by
  have hpos : (0 : Int) < 2 ^ (w - 1) := by positivity
  have hdouble : (2 : Int) ^ w = 2 * 2 ^ (w - 1) := by
    obtain ⟨k, rfl⟩ : ∃ k, w = k + 1 := ⟨w - 1, by omega⟩
    simp [pow_succ, mul_comm]
  have h0 := Int.emod_nonneg (v + 2 ^ (w - 1)) (by omega : (2 ^ w : Int) ≠ 0)
  have h1 := Int.emod_lt_of_pos (v + 2 ^ (w - 1)) (by omega : (0 : Int) < 2 ^ w)
  unfold castSigned
  refine ⟨⟨by omega, by omega⟩, ?_⟩
  refine ⟨-((v + 2 ^ (w - 1)) / 2 ^ w), ?_⟩
  rw [Int.emod_def]
  ring

/-- The accumulator of `sum_flag_vector` after the loop, on tokens that `to_flag_value`
maps to the values `vs`: their sum, reduced into the signed 64-bit range. -/
theorem sumFlags_ok (flags : List (List Char)) : ∀ (vs : List Int) (count : Int),
    flags.map to_flag_value = vs.map Except.ok → castSigned 64 count = count →
    sumFlags flags count = .ok (castSigned 64 (count + vs.sum)) := by
  induction flags with
  | nil =>
    intro vs count h hc
    cases vs with
    | nil => simp [sumFlags, hc]
    | cons v vs => simp at h
  | cons flag flags ih =>
    intro vs count h hc
    cases vs with
    | nil => simp at h
    | cons v vs =>
      simp only [List.map_cons, List.cons.injEq] at h
      obtain ⟨hv, hrest⟩ := h
      simp only [sumFlags, hv]
      have hidem : castSigned 64 (castSigned 64 (count + v)) = castSigned 64 (count + v) := by
        have := castSigned_add_castSigned 64 (count + v) 0
        simpa using this
      rw [ih vs _ hrest hidem, castSigned_add_castSigned, List.sum_cons, add_assoc]

/-- C13, as stated, fails at the 64-bit width: the tokens `9223372036854775807` and `1`
have the sum `2 ^ 63`, which is positive and fits the 64-bit unsigned destination, and the
output is `0`; the tokens `-9223372036854775808` and `-1` have a negative sum and the
output is `2 ^ 63 - 1`. The accumulator is an `int64_t`. -/
theorem sum_flag_vector_unsigned_accumulator_wraps :
    to_flag_value "9223372036854775807".toList = .ok 9223372036854775807 ∧
    to_flag_value "1".toList = .ok 1 ∧
    sum_flag_vector_unsigned 64 ["9223372036854775807".toList, "1".toList] = .ok 0 ∧
    to_flag_value "-9223372036854775808".toList = .ok (-9223372036854775808) ∧
    to_flag_value "-1".toList = .ok (-1) ∧
    sum_flag_vector_unsigned 64 ["-9223372036854775808".toList, "-1".toList] =
      .ok 9223372036854775807 := by
  decide

/-- C13, amended. Unsigned flag aggregation clamps at zero: on tokens that `to_flag_value`
maps to the values `vs`, with `S` their sum and `S` in the signed 64-bit range of the
accumulator, the output is `0` when `S ≤ 0` and `S` when `S > 0` and `S < 2 ^ w`. -/
theorem sum_flag_vector_unsigned_clamps (w : Nat) (flags : List (List Char)) (vs : List Int)
    (h : flags.map to_flag_value = vs.map Except.ok)
    (h64 : -2 ^ 63 ≤ vs.sum ∧ vs.sum < 2 ^ 63) :
    (vs.sum ≤ 0 → sum_flag_vector_unsigned w flags = .ok 0) ∧
    (0 < vs.sum → vs.sum < 2 ^ w → sum_flag_vector_unsigned w flags = .ok vs.sum.toNat) := by
  have hS : castSigned 64 (0 + vs.sum) = vs.sum := by
    rw [zero_add]
    exact (castSigned_eq_iff 64 (by norm_num) vs.sum).mpr (by simpa using h64)
  have hsum := sumFlags_ok flags vs 0 h (by decide)
  rw [hS] at hsum
  unfold sum_flag_vector_unsigned
  rw [hsum]
  constructor
  · intro hle
    simp [not_lt.mpr hle]
  · intro hpos hfit
    have hfit2 : vs.sum.toNat < 2 ^ w := by
      have : ((vs.sum.toNat : Nat) : Int) < ((2 ^ w : Nat) : Int) := by
        rw [Int.toNat_of_nonneg hpos.le]
        exact_mod_cast hfit
      exact_mod_cast this
    simp [hpos, (castUnsigned_eq_iff w _).mpr hfit2]

/-- C13 amended, on the empty list and on the lists `true true false` and `false false`,
into 32 bits. -/
theorem sum_flag_vector_unsigned_clamps_witness :
    sum_flag_vector_unsigned 32 [] = .ok 0 ∧
    sum_flag_vector_unsigned 32 ["true".toList, "true".toList, "false".toList] = .ok 1 ∧
    sum_flag_vector_unsigned 32 ["false".toList, "false".toList] = .ok 0 :=
  ⟨(sum_flag_vector_unsigned_clamps 32 [] [] rfl (by decide)).1 (by decide),
    ((sum_flag_vector_unsigned_clamps 32 ["true".toList, "true".toList, "false".toList]
      [1, 1, -1] (by decide) (by decide)).2 (by decide) (by decide)).trans (by decide),
    (sum_flag_vector_unsigned_clamps 32 ["false".toList, "false".toList] [-1, -1]
      (by decide) (by decide)).1 (by decide)⟩

/-- C14. Signed flag aggregation casts the raw sum: on tokens that `to_flag_value` maps to
the values `vs`, with `S` their 64-bit sum (the sum reduced into the signed 64-bit range,
the sum itself when it lies there), the output is `S` cast to `w` bits: `S` itself when
`-2 ^ (w - 1) ≤ S < 2 ^ (w - 1)`, and in every case the value of the signed `w`-bit range
that differs from `S` by a multiple of `2 ^ w`. -/
theorem sum_flag_vector_signed_casts (w : Nat) (hw : w = 8 ∨ w = 16 ∨ w = 32 ∨ w = 64)
    (flags : List (List Char)) (vs : List Int)
    (h : flags.map to_flag_value = vs.map Except.ok) :
    ∃ o, sum_flag_vector_signed w flags = .ok o ∧
      o = castSigned w (castSigned 64 vs.sum) ∧
      (-2 ^ (w - 1) ≤ castSigned 64 vs.sum ∧ castSigned 64 vs.sum < 2 ^ (w - 1) →
        o = castSigned 64 vs.sum) ∧
      (-2 ^ (w - 1) ≤ o ∧ o < 2 ^ (w - 1)) ∧
      (2 ^ w : Int) ∣ (o - castSigned 64 vs.sum) ∧
      (-2 ^ 63 ≤ vs.sum ∧ vs.sum < 2 ^ 63 → castSigned 64 vs.sum = vs.sum) := by
  have hw0 : 0 < w := by omega
  have hsum := sumFlags_ok flags vs 0 h (by decide)
  rw [zero_add] at hsum
  refine ⟨castSigned w (castSigned 64 vs.sum), ?_, rfl, ?_, ?_, ?_, ?_⟩
  · unfold sum_flag_vector_signed
    rw [hsum]
  · exact fun hr => (castSigned_eq_iff w hw0 _).mpr hr
  · exact (castSigned_spec w hw0 _).1
  · exact (castSigned_spec w hw0 _).2
  · exact fun hr => (castSigned_eq_iff 64 (by norm_num) _).mpr (by simpa using hr)

/-- C14, on the list `false false` into 32 bits (`-2`), and on the list `9 9 9 ...` of
fifteen tokens into 8 bits: the sum `135` wraps to `-121`. -/
theorem sum_flag_vector_signed_casts_witness :
    sum_flag_vector_signed 32 ["false".toList, "false".toList] = .ok (-2) ∧
    sum_flag_vector_signed 8 (List.replicate 15 "9".toList) = .ok (-121) ∧
    (∃ o, sum_flag_vector_signed 8 (List.replicate 15 "9".toList) = .ok o ∧
      o = castSigned 8 (castSigned 64 (List.replicate 15 (9 : Int)).sum) ∧
      (-2 ^ (8 - 1) ≤ castSigned 64 (List.replicate 15 (9 : Int)).sum ∧
        castSigned 64 (List.replicate 15 (9 : Int)).sum < 2 ^ (8 - 1) →
        o = castSigned 64 (List.replicate 15 (9 : Int)).sum) ∧
      (-2 ^ (8 - 1) ≤ o ∧ o < 2 ^ (8 - 1)) ∧
      (2 ^ 8 : Int) ∣ (o - castSigned 64 (List.replicate 15 (9 : Int)).sum) ∧
      (-2 ^ 63 ≤ (List.replicate 15 (9 : Int)).sum ∧
        (List.replicate 15 (9 : Int)).sum < 2 ^ 63 →
        castSigned 64 (List.replicate 15 (9 : Int)).sum =
          (List.replicate 15 (9 : Int)).sum)) :=
  ⟨by decide, by decide,
    sum_flag_vector_signed_casts 8 (by decide) (List.replicate 15 "9".toList)
      (List.replicate 15 9) (by decide)⟩

/-! ### Enumerations, strings and the assignment adapter -/

/-- The enumeration overload returns what the overload of the underlying type returns, and
on success holds the parsed value of the underlying type. -/
theorem lexical_cast_enum_of_underlying {U : Type}
    (lc : List Char → U → Except StdExcept (Bool × U)) (input : List Char) (val : U)
    (output : EnumOf U) (r : Bool) (v : U) (h : lc input val = .ok (r, v)) :
    lexical_cast_enum lc input val output =
      .ok (r, if r then EnumOf.mk v else output) := by
  unfold lexical_cast_enum
  rw [h]
  cases r <;> rfl

/-- C15. Enum coercion goes through the underlying integer: for an underlying type of `w`
bits, signed or unsigned, the enumeration overload returns the boolean that `lexical_cast`
into the underlying type returns, and on success the output is the enumeration value whose
underlying value is the parsed integer, with no test against the enumerators. -/
theorem lexical_cast_enum_underlying (w : Nat) (input : List Char) :
    (∀ (val : Int) (output : EnumOf Int),
      (lexical_cast_enum (lexical_cast_signed w) input val output).map Prod.fst =
        (lexical_cast_signed w input val).map Prod.fst ∧
      ∀ v, lexical_cast_signed w input val = .ok (true, v) →
        lexical_cast_enum (lexical_cast_signed w) input val output = .ok (true, EnumOf.mk v)) ∧
    (∀ (val : Nat) (output : EnumOf Nat),
      (lexical_cast_enum (lexical_cast_unsigned w) input val output).map Prod.fst =
        (lexical_cast_unsigned w input val).map Prod.fst ∧
      ∀ v, lexical_cast_unsigned w input val = .ok (true, v) →
        lexical_cast_enum (lexical_cast_unsigned w) input val output =
          .ok (true, EnumOf.mk v)) := by
  constructor
  · intro val output
    obtain ⟨⟨r, v⟩, hr⟩ := lexical_cast_signed_returns w input val
    have he := lexical_cast_enum_of_underlying (lexical_cast_signed w) input val output r v hr
    refine ⟨by rw [he, hr]; rfl, ?_⟩
    intro v2 h2
    rw [h2] at hr
    cases hr
    exact he
  · intro val output
    obtain ⟨⟨r, v⟩, hr⟩ := lexical_cast_unsigned_returns w input val
    have he := lexical_cast_enum_of_underlying (lexical_cast_unsigned w) input val output r v hr
    refine ⟨by rw [he, hr]; rfl, ?_⟩
    intro v2 h2
    rw [h2] at hr
    cases hr
    exact he

/-- C15, for an enumeration `{Red = 0, Green = 1, Blue = 2}` over `int`: `1` yields the
value of `Green`, `7` succeeds with underlying value `7`, which is no enumerator, and
`1x` fails with the output as it was. -/
theorem lexical_cast_enum_underlying_witness :
    lexical_cast_enum (lexical_cast_signed 32) "1".toList 0 (EnumOf.mk 0) =
      .ok (true, EnumOf.mk 1) ∧
    lexical_cast_enum (lexical_cast_signed 32) "7".toList 0 (EnumOf.mk 0) =
      .ok (true, EnumOf.mk 7) ∧
    EnumOf.mk (7 : Int) ∉ [EnumOf.mk 0, EnumOf.mk 1, EnumOf.mk 2] ∧
    lexical_cast_enum (lexical_cast_signed 32) "1x".toList 0 (EnumOf.mk 2) =
      .ok (false, EnumOf.mk 2) :=
  ⟨((lexical_cast_enum_underlying 32 "1".toList).1 0 (EnumOf.mk 0)).2 1 (by decide),
    ((lexical_cast_enum_underlying 32 "7".toList).1 0 (EnumOf.mk 0)).2 7 (by decide),
    by decide, by decide⟩

/-- C16. String-assignable destinations take the token verbatim: into a `std::string` the
overload returns true and the output is the token, character for character, whatever the
token and the prior output. -/
theorem lexical_cast_string_verbatim (input output : List Char) :
    lexical_cast_string_assignable string_assign input output = .ok (true, input) := by
  rfl

/-- C16, at the empty token and at a token with white space at both ends. -/
theorem lexical_cast_string_verbatim_witness :
    lexical_cast_string_assignable string_assign "".toList "old".toList = .ok (true, []) ∧
    lexical_cast_string_assignable string_assign " a b\t".toList [] =
      .ok (true, [' ', 'a', ' ', 'b', '\t']) :=
  ⟨lexical_cast_string_verbatim [] "old".toList,
    lexical_cast_string_verbatim [' ', 'a', ' ', 'b', '\t'] []⟩

/-- C17. Assignment adapter with `T != XC`: both overloads return the result of
`lexical_cast<XC>` on the token; when it is true the output is the `T` value assigned or
constructed from the parsed `XC` value, and when it is false the output is unchanged. -/
theorem lexical_assign_converts {T XC : Type}
    (lc : List Char → XC → Except StdExcept (Bool × XC)) (assign : T → XC → T)
    (construct : XC → T) (input : List Char) (val : XC) (output : T)
    (parse_result : Bool) (parsed : XC) (h : lc input val = .ok (parse_result, parsed)) :
    lexical_assign_assignable lc assign input val output =
      .ok (parse_result, if parse_result then assign output parsed else output) ∧
    lexical_assign_constructible lc construct input val output =
      .ok (parse_result, if parse_result then construct parsed else output) := by
  unfold lexical_assign_assignable lexical_assign_constructible
  rw [h]
  exact ⟨rfl, rfl⟩

/-- C17, for `T` a 64-bit and `XC` a 32-bit signed integer (the `T` value of an `XC` value
is the same number): `42` is parsed and stored, and on `12abc` the parse returns false and
the output keeps its prior value `7`. -/
theorem lexical_assign_converts_witness :
    lexical_assign_assignable (lexical_cast_signed 32) (fun _ v => v) "42".toList 0 7 =
      .ok (true, 42) ∧
    lexical_assign_constructible (lexical_cast_signed 32) (fun v => v) "12abc".toList 0 7 =
      .ok (false, 7) :=
  ⟨(lexical_assign_converts (lexical_cast_signed 32) (fun _ v => v) (fun v => v)
      "42".toList 0 7 true 42 (by decide)).1,
    (lexical_assign_converts (lexical_cast_signed 32) (fun _ v => v) (fun v => v)
      "12abc".toList 0 7 false 12 (by decide)).2⟩

/-! ### The capability classifier -/

/-- Every overload of `lexical_cast` is in the overload set. -/
theorem mem_overloads (s : Strategy) : s ∈ overloads := by
  cases s <;> decide

/-- An overload is viable exactly when its condition holds. -/
theorem mem_viable (t : TypeTraits) (s : Strategy) :
    s ∈ viable t ↔ s.enabled t = true := by
  simp [viable, mem_overloads]

/-- For the answers ISO C++ allows, one overload is viable, and it is the first category of
the priority order that applies. -/
theorem viable_eq_classify (t : TypeTraits) (h : t.wellFormed = true) :
    ∃ s, viable t = [s] ∧ classify t = some s := by
  obtain ⟨a, b, c, d, e, f, g, k, i, j⟩ := t
  revert h
  cases a <;> cases b <;> cases c <;> cases d <;> cases e <;> cases f <;> cases g <;>
    cases k <;> cases i <;> cases j <;> intro h <;>
    first
    | exact absurd h (by decide)
    | exact ⟨_, rfl, rfl⟩

/-- C18. Exactly one scalar strategy per destination type: for the answers of the type
traits that ISO C++ allows, exactly one of the conditions of the `lexical_cast` overloads
holds. -/
theorem lexical_cast_exactly_one_overload (t : TypeTraits) (h : t.wellFormed = true) :
    (viable t).length = 1 ∧ ∃! s : Strategy, s.enabled t = true := by
  obtain ⟨s, hs, _⟩ := viable_eq_classify t h
  refine ⟨by rw [hs]; rfl, s, ?_, ?_⟩
  · exact (mem_viable t s).mp (by rw [hs]; exact List.mem_singleton_self s)
  · intro s2 h2
    have := (mem_viable t s2).mpr h2
    rw [hs] at this
    exact List.mem_singleton.mp this

/-- C19. Strategy selection equals first match in the documented priority order: for the
answers of the type traits that ISO C++ allows, overload resolution selects an overload of
`lexical_cast`, and it is the first category that applies in the priority order. -/
theorem selected_eq_first_match (t : TypeTraits) (h : t.wellFormed = true) :
    ∃ s, selected t = some s ∧ classify t = some s := by
  obtain ⟨s, hs, hc⟩ := viable_eq_classify t h
  exact ⟨s, by unfold selected; rw [hs], hc⟩

/-- C18, for `int` and for a scoped enumeration. -/
theorem lexical_cast_exactly_one_overload_witness :
    traitsInt.wellFormed = true ∧ viable traitsInt = [.signed_integral] ∧
    ((viable traitsInt).length = 1 ∧ ∃! s : Strategy, s.enabled traitsInt = true) ∧
    traitsEnum.wellFormed = true ∧ viable traitsEnum = [.enumeration] ∧
    ((viable traitsEnum).length = 1 ∧ ∃! s : Strategy, s.enabled traitsEnum = true) :=
  ⟨by decide, by decide, lexical_cast_exactly_one_overload traitsInt (by decide),
    by decide, by decide, lexical_cast_exactly_one_overload traitsEnum (by decide)⟩

/-- C19, for `bool` (integral and unsigned, and carved out of the unsigned category), for
`std::string`, and for a class constructible from `double` and from `int`. -/
theorem selected_eq_first_match_witness :
    traitsBool.wellFormed = true ∧ selected traitsBool = some .boolean ∧
    (∃ s, selected traitsBool = some s ∧ classify traitsBool = some s) ∧
    traitsString.wellFormed = true ∧ selected traitsString = some .string_assignable ∧
    (∃ s, selected traitsString = some s ∧ classify traitsString = some s) ∧
    traitsNumberClass.wellFormed = true ∧
    selected traitsNumberClass = some .from_double_or_int ∧
    (∃ s, selected traitsNumberClass = some s ∧ classify traitsNumberClass = some s) :=
  ⟨by decide, by decide, selected_eq_first_match traitsBool (by decide),
    by decide, by decide, selected_eq_first_match traitsString (by decide),
    by decide, by decide, selected_eq_first_match traitsNumberClass (by decide)⟩

/-! ### The container pair adapter -/

/-- C20. Pair adaptation: for a set-like container `first` and `second` both return the
element itself; for a map-like container `first` is the key component and `second` the
mapped-value component of the element; the specialization is chosen exactly when the
element type has both member types. -/
theorem pair_adaptor_projections {Q K V : Type} (x : Q) (key : K) (mapped : V) :
    pair_adaptor_first x = x ∧ pair_adaptor_second x = x ∧
    pair_adaptor_map_first (key, mapped) = key ∧
    pair_adaptor_map_second (key, mapped) = mapped ∧
    pair_adaptor_value false false = false ∧ pair_adaptor_value true true = true :=
  ⟨rfl, rfl, rfl, rfl, rfl, rfl⟩

/-- C20, on the flat collection `{2, 3, 4}` and on the paired collection `{("a", 1)}`. -/
theorem pair_adaptor_projections_witness :
    [2, 3, 4].map pair_adaptor_first = [2, 3, 4] ∧
    [2, 3, 4].map pair_adaptor_second = [2, 3, 4] ∧
    pair_adaptor_map_first ("a", 1) = "a" ∧
    pair_adaptor_map_second ("a", 1) = 1 :=
  ⟨by decide, by decide, (pair_adaptor_projections 0 "a" 1).2.2.1,
    (pair_adaptor_projections 0 "a" 1).2.2.2.1⟩

/-! ### Stringification -/

/-- C25. The function `to_string` selects by capability: for a type that can construct a
`std::string` it returns the value itself; for a type that cannot and is output-streamable
it returns the text the stream insertion produces; for a type that is neither it returns
the empty string. -/
theorem to_string_by_capability {T : Type} (is_constructible is_ostreamable : Bool)
    (insert : T → List Char) (value : T) :
    (is_constructible = true →
      to_string is_constructible is_ostreamable insert value = some (.inl value)) ∧
    (is_constructible = false → is_ostreamable = true →
      to_string is_constructible is_ostreamable insert value = some (.inr (insert value))) ∧
    (is_constructible = false → is_ostreamable = false →
      to_string is_constructible is_ostreamable insert value = some (.inr [])) := by
  cases is_constructible <;> cases is_ostreamable <;> simp [to_string, ToStringOverload.enabled]

/-- C25, for a `std::string` (returned as it is), for an `int` written in decimal by the
stream, and for a type with neither capability. -/
theorem to_string_by_capability_witness :
    to_string true true (fun s : List Char => s) "abc".toList = some (.inl "abc".toList) ∧
    to_string false true decimalText 42 = some (.inr "42".toList) ∧
    to_string false false (fun _ : Unit => "unused".toList) () = some (.inr []) :=
  ⟨(to_string_by_capability true true (fun s : List Char => s) "abc".toList).1 rfl,
    (to_string_by_capability false true decimalText 42).2.1 rfl rfl,
    (to_string_by_capability false false (fun _ : Unit => "unused".toList) ()).2.2 rfl rfl⟩

/-- C21. The function `checked_to_string<T1, T2>` returns the empty string for every value
when `T1` and `T2` are different types, and what `to_string` returns when they are the
same type. -/
theorem checked_to_string_by_type {T : Type} (T1 T2 : CppType)
    (is_constructible is_ostreamable : Bool) (insert : T → List Char) (value : T) :
    (T1 ≠ T2 →
      checked_to_string T1 T2 is_constructible is_ostreamable insert value = some (.inr [])) ∧
    (T1 = T2 →
      checked_to_string T1 T2 is_constructible is_ostreamable insert value =
        to_string is_constructible is_ostreamable insert value) := by
  constructor
  · intro h
    simp [checked_to_string, is_same, h]
  · intro h
    simp [checked_to_string, is_same, h]

/-- C21, for the value `42`: `checked_to_string<int, long>` is empty and
`checked_to_string<int, int>` is `42`. -/
theorem checked_to_string_by_type_witness :
    checked_to_string (.plain "int") (.plain "long") false true decimalText 42 =
      some (.inr []) ∧
    checked_to_string (.plain "int") (.plain "int") false true decimalText 42 =
      some (.inr "42".toList) :=
  ⟨(checked_to_string_by_type (.plain "int") (.plain "long") false true decimalText 42).1
      (by decide),
    ((checked_to_string_by_type (.plain "int") (.plain "int") false true decimalText 42).2
      rfl).trans (by decide)⟩

/-! ### The diagnostic tag `type_name` -/

/-- C23, as stated, fails: `std::set<int>` and `std::list<int>` are containers and their
tag is `TEXT`; the trait `is_vector` holds for `std::vector` alone. -/
theorem type_name_set_is_text :
    type_name traitsContainer (is_vector (.class_template "std::set" (.plain "int") false)) =
      some "TEXT".toList ∧
    type_name traitsContainer (is_vector (.class_template "std::list" (.plain "int") false)) =
      some "TEXT".toList := by
  decide

/-- C23, amended. For a class type, `type_name` returns `VECTOR` when the type is a
`std::vector`, whatever its element type, and `TEXT` when it is an instantiation of another
class template. -/
theorem type_name_vector (t : TypeTraits) (hi : t.is_integral = false)
    (hf : t.is_floating_point = false) (he : t.is_enum = false) (value_type : CppType) :
    type_name t (is_vector (.class_template "std::vector" value_type false)) =
      some "VECTOR".toList ∧
    ∀ (name : String) (is_const : Bool), name ≠ "std::vector" →
      type_name t (is_vector (.class_template name value_type is_const)) =
        some "TEXT".toList := by
  constructor
  · simp [type_name, type_name_viable, TypeNameOverload.enabled, is_vector, hi, hf, he,
      TypeNameOverload.text]
  · intro name is_const hne
    have hv : is_vector (.class_template name value_type is_const) = false := by
      cases is_const <;> simp [is_vector, hne]
    simp [type_name, type_name_viable, TypeNameOverload.enabled, hv, hi, hf, he,
      TypeNameOverload.text]

/-- C23 amended, for `std::vector<int>`: the tag is `VECTOR` and not `INT`. -/
theorem type_name_vector_witness :
    type_name traitsContainer
      (is_vector (.class_template "std::vector" (.plain "int") false)) =
      some "VECTOR".toList ∧
    type_name traitsContainer
      (is_vector (.class_template "std::vector" (.plain "int") false)) ≠ some "INT".toList ∧
    type_name traitsContainer (is_vector (.class_template "std::set" (.plain "int") false)) =
      some "TEXT".toList :=
  ⟨(type_name_vector traitsContainer rfl rfl rfl (.plain "int")).1, by decide,
    (type_name_vector traitsContainer rfl rfl rfl (.plain "int")).2 "std::set" false
      (by decide)⟩

/-- C24, as stated, fails for `bool`: the selected strategy is the boolean one, which the
claim tags `TEXT`, and `type_name<bool>()` is `UINT`. -/
theorem type_name_bool_is_uint :
    traitsBool.wellFormedBool = true ∧ selected traitsBool = some .boolean ∧
    type_name traitsBool false = some "UINT".toList := by
  decide

/-- C24, amended. For a type that is no `std::vector`, with the answers of the type traits
that ISO C++ allows, `type_name` is the tag of the selected strategy: `INT` exactly for
signed-integral, `UINT` exactly for unsigned-integral and boolean, `FLOAT` exactly for
floating, `ENUM` exactly for enum, and `TEXT` exactly for the other categories. -/
theorem type_name_agrees_with_strategy (t : TypeTraits) (h : t.wellFormedBool = true) :
    ∃ s, selected t = some s ∧ type_name t false = some (tagOfStrategy s).text ∧
      (type_name t false = some "INT".toList ↔ s = .signed_integral) ∧
      (type_name t false = some "UINT".toList ↔ s = .unsigned_integral ∨ s = .boolean) ∧
      (type_name t false = some "FLOAT".toList ↔ s = .floating) ∧
      (type_name t false = some "ENUM".toList ↔ s = .enumeration) ∧
      (type_name t false = some "TEXT".toList ↔
        s = .string_assignable ∨ s = .string_constructible ∨ s = .from_double_or_int ∨
          s = .from_int ∨ s = .from_double ∨ s = .stream) := by
  obtain ⟨a, b, c, d, e, f, g, k, i, j⟩ := t
  revert h
  cases a <;> cases b <;> cases c <;> cases d <;> cases e <;> cases f <;> cases g <;>
    cases k <;> cases i <;> cases j <;> intro h <;>
    first
    | exact absurd h (by decide)
    | exact ⟨_, rfl, rfl, by decide, by decide, by decide, by decide, by decide⟩

/-- C24 amended, for `int`, `bool` and `std::string`. -/
theorem type_name_agrees_with_strategy_witness :
    traitsInt.wellFormedBool = true ∧ type_name traitsInt false = some "INT".toList ∧
    traitsBool.wellFormedBool = true ∧ type_name traitsBool false = some "UINT".toList ∧
    traitsString.wellFormedBool = true ∧ type_name traitsString false = some "TEXT".toList ∧
    (∃ s, selected traitsBool = some s ∧
      type_name traitsBool false = some (tagOfStrategy s).text ∧
      (type_name traitsBool false = some "INT".toList ↔ s = .signed_integral) ∧
      (type_name traitsBool false = some "UINT".toList ↔
        s = .unsigned_integral ∨ s = .boolean) ∧
      (type_name traitsBool false = some "FLOAT".toList ↔ s = .floating) ∧
      (type_name traitsBool false = some "ENUM".toList ↔ s = .enumeration) ∧
      (type_name traitsBool false = some "TEXT".toList ↔
        s = .string_assignable ∨ s = .string_constructible ∨ s = .from_double_or_int ∨
          s = .from_int ∨ s = .from_double ∨ s = .stream)) :=
  ⟨by decide, by decide, by decide, by decide, by decide, by decide,
    type_name_agrees_with_strategy traitsBool (by decide)⟩

/-! ### The error kinds -/

/-- C26. Every error kind carries its own name and designated exit code: each kind `K`
with a message-only constructor has the name `K`, the message given and the exit code
`ExitCodes::K`; `FileError(m)` has the name `FileError` and the exit code
`ExitCodes::File`; `Success()` and `CallForHelp()` have the exit code `0`; and
`RuntimeError(c)` has the exit code `c`, `1` by default. -/
theorem error_kinds_carry_name_and_code :
    carriesKind IncorrectConstruction.simple .IncorrectConstruction ∧
    carriesKind BadNameString.simple .BadNameString ∧
    carriesKind OptionAlreadyAdded.simple .OptionAlreadyAdded ∧
    carriesKind ConversionError.simple .ConversionError ∧
    carriesKind ValidationError.simple .ValidationError ∧
    carriesKind RequiredError.simple .RequiredError ∧
    carriesKind ExtrasError.simple .ExtrasError ∧
    carriesKind ExtrasINIError.simple .ExtrasINIError ∧
    carriesKind InvalidError.simple .InvalidError ∧
    carriesKind HorribleError.simple .HorribleError ∧
    carriesKind OptionNotFound.simple .OptionNotFound ∧
    (∀ msg, (FileError.of_msg msg).get_name = "FileError".toList ∧
      (FileError.of_msg msg).what = msg ∧
      (FileError.of_msg msg).get_exit_code = ExitCodes.File.toInt) ∧
    Success.default.get_exit_code = 0 ∧ CallForHelp.default.get_exit_code = 0 ∧
    (∀ c : Int, (RuntimeError.of_exit_code (some c)).get_exit_code = c) ∧
    (RuntimeError.of_exit_code none).get_exit_code = 1 := by
  refine ⟨?_, ?_, ?_, ?_, ?_, ?_, ?_, ?_, ?_, ?_, ?_, ?_, ?_, ?_, ?_, ?_⟩
  all_goals first
    | (intro msg; exact ⟨rfl, rfl, rfl⟩)
    | (intro c; rfl)
    | rfl

/-- C26, at concrete messages: the names and the exit codes as texts and numbers. -/
theorem error_kinds_carry_name_and_code_witness :
    ConversionError.simple "bad value".toList =
      { what := "bad value".toList, exit_code := 104, name := "ConversionError".toList } ∧
    OptionNotFound.simple "x".toList =
      { what := "x".toList, exit_code := 113, name := "OptionNotFound".toList } ∧
    FileError.of_msg "f.ini".toList =
      { what := "f.ini".toList, exit_code := 103, name := "FileError".toList } ∧
    Success.default.get_name = "Success".toList ∧
    (RuntimeError.of_exit_code (some 42)).get_exit_code = 42 ∧
    carriesKind ValidationError.simple .ValidationError :=
  ⟨by decide, by decide, by decide, by decide, by decide,
    error_kinds_carry_name_and_code.2.2.2.2.1⟩

/-! ### The strategy for a type constructible from `double` and from `int` -/

/-- C27. Preference order for a destination direct-constructible from both `int` and
`double`: if the token coerces to `int`, the output is constructed from that `int`,
whatever the parse into `double` and the stream extraction would do; otherwise, if it
coerces to `double`, the output is constructed from that `double`, whatever the stream
extraction would do; otherwise the result and the output are those of `from_stream`. -/
theorem lexical_cast_from_double_or_int_order {T D : Type}
    (lexical_cast_double : List Char → D → Except StdExcept (Bool × D))
    (from_stream : List Char → T → Except StdExcept (Bool × T))
    (from_int : Int → T) (from_double : D → T)
    (input : List Char) (val : Int) (dval : D) (output : T) :
    (∀ v, lexical_cast_signed 32 input val = .ok (true, v) →
      ∀ (other_double : List Char → D → Except StdExcept (Bool × D))
        (other_stream : List Char → T → Except StdExcept (Bool × T)),
        lexical_cast_from_double_or_int other_double other_stream from_int from_double
          input val dval output = .ok (true, from_int v)) ∧
    (∀ v d, lexical_cast_signed 32 input val = .ok (false, v) →
      lexical_cast_double input dval = .ok (true, d) →
      ∀ other_stream : List Char → T → Except StdExcept (Bool × T),
        lexical_cast_from_double_or_int lexical_cast_double other_stream from_int from_double
          input val dval output = .ok (true, from_double d)) ∧
    (∀ v d, lexical_cast_signed 32 input val = .ok (false, v) →
      lexical_cast_double input dval = .ok (false, d) →
      lexical_cast_from_double_or_int lexical_cast_double from_stream from_int from_double
        input val dval output = from_stream input output) := by
  refine ⟨?_, ?_, ?_⟩
  · intro v h od os
    simp only [lexical_cast_from_double_or_int, h]
  · intro v d h hd os
    simp only [lexical_cast_from_double_or_int, h, hd]
  · intro v d h hd
    simp only [lexical_cast_from_double_or_int, h, hd]

/-- C27, with a parse into `double` that accepts the token `1.5` alone and a stream
extraction that accepts the token `one` alone: `7` is built from the `int`, `1.5` from the
`double`, `one` by the stream, and `two` fails. -/
theorem lexical_cast_from_double_or_int_order_witness :
    lexical_cast_from_double_or_int
      (fun s d => .ok (decide (s = "1.5".toList), d))
      (fun s o => .ok (decide (s = "one".toList), if s = "one".toList then "stream" else o))
      (fun _ => "int") (fun _ => "double") "7".toList 0 () "prior" = .ok (true, "int") ∧
    lexical_cast_from_double_or_int
      (fun s d => .ok (decide (s = "1.5".toList), d))
      (fun s o => .ok (decide (s = "one".toList), if s = "one".toList then "stream" else o))
      (fun _ => "int") (fun _ => "double") "1.5".toList 0 () "prior" = .ok (true, "double") ∧
    lexical_cast_from_double_or_int
      (fun s d => .ok (decide (s = "1.5".toList), d))
      (fun s o => .ok (decide (s = "one".toList), if s = "one".toList then "stream" else o))
      (fun _ => "int") (fun _ => "double") "one".toList 0 () "prior" = .ok (true, "stream") ∧
    lexical_cast_from_double_or_int
      (fun s d => .ok (decide (s = "1.5".toList), d))
      (fun s o => .ok (decide (s = "one".toList), if s = "one".toList then "stream" else o))
      (fun _ => "int") (fun _ => "double") "two".toList 0 () "prior" = .ok (false, "prior") :=
  ⟨(lexical_cast_from_double_or_int_order
      (fun s d => .ok (decide (s = "1.5".toList), d))
      (fun s o => .ok (decide (s = "one".toList), if s = "one".toList then "stream" else o))
      (fun _ => "int") (fun _ => "double") "7".toList 0 () "prior").1 7 (by decide) _ _,
    (lexical_cast_from_double_or_int_order
      (fun s d => .ok (decide (s = "1.5".toList), d))
      (fun s o => .ok (decide (s = "one".toList), if s = "one".toList then "stream" else o))
      (fun _ => "int") (fun _ => "double") "1.5".toList 0 () "prior").2.1 1 ()
      (by decide) (by decide) _,
    by decide, by decide⟩

/-! ### Pointer classification -/

theorem toLower_toLower (c : Char) : c.toLower.toLower = c.toLower := by
  have hdef : ∀ x : Char, x.toLower =
      if x.toNat ≥ 65 ∧ x.toNat ≤ 90 then Char.ofNat (x.toNat + 32) else x := fun _ => rfl
  have key : ¬ (c.toLower.toNat ≥ 65 ∧ c.toLower.toNat ≤ 90) := by
    rw [hdef c]
    split_ifs with h
    · obtain ⟨h1, h2⟩ := h
      generalize c.toNat = n at h1 h2
      interval_cases n <;> decide
    · exact h
  rw [hdef c.toLower, if_neg key]

/-- Lower-casing a token that is lower-cased changes nothing. -/
theorem to_lower_to_lower (s : List Char) : to_lower (to_lower s) = to_lower s := by
  simp [to_lower, toLower_toLower]

/-- Two tokens that are neither `true` nor `false` and have the same lower-cased form are
mapped alike. -/
theorem to_flag_value_of_lowered (s t : List Char) (hs1 : s ≠ trueString)
    (hs2 : s ≠ falseString) (ht1 : t ≠ trueString) (ht2 : t ≠ falseString)
    (h : to_lower s = to_lower t) : to_flag_value s = to_flag_value t := by
  unfold to_flag_value
  simp only [if_neg hs1, if_neg hs2, if_neg ht1, if_neg ht2, h]

/-- C29. The function `to_flag_value` is case-insensitive: a token and its lower-cased form
have the same outcome, the same magnitude or the same exception. -/
theorem to_flag_value_case_insensitive (s : List Char) :
    to_flag_value (to_lower s) = to_flag_value s := by
  by_cases h1 : s = trueString
  · subst h1; decide
  · by_cases h2 : s = falseString
    · subst h2; decide
    · by_cases h3 : to_lower s = trueString
      · rw [h3]
        unfold to_flag_value
        simp only [if_neg h1, if_neg h2, h3]
        rfl
      · by_cases h4 : to_lower s = falseString
        · rw [h4]
          unfold to_flag_value
          simp only [if_neg h1, if_neg h2, h4]
          rfl
        · exact to_flag_value_of_lowered _ _ h3 h4 h1 h2 (to_lower_to_lower s)

/-- C29, at the tokens `TRUE`, `True`, `ON`, `Y`, `F` and `Q`. -/
theorem to_flag_value_case_insensitive_witness :
    to_flag_value "TRUE".toList = .ok 1 ∧ to_flag_value "True".toList = .ok 1 ∧
    to_flag_value "ON".toList = .ok 1 ∧ to_flag_value "Y".toList = .ok 1 ∧
    to_flag_value "F".toList = .ok (-1) ∧
    to_flag_value "Q".toList = to_flag_value "q".toList :=
  ⟨by decide, by decide, by decide, by decide, by decide,
    (to_flag_value_case_insensitive "Q".toList).symm⟩

/-- White space is no digit, in any base. -/
theorem digitInBase_space {b : Nat} {c : Char} (h : isspace c = true) :
    digitInBase b c = none := by
  apply digitInBase_of_digitValue_none
  simp only [isspace, Bool.or_eq_true, beq_iff_eq] at h
  rcases h with ((((h | h) | h) | h) | h) | h <;> subst h <;> decide

/-- The digit loop stops at the end of the text and at white space. -/
theorem scanDigits_stop (b : Nat) (rest : List Char) (acc k : Nat)
    (hstop : ∀ c, rest.head? = some c → isspace c = true) :
    scanDigits b rest acc k = (acc, k) := by
  cases rest with
  | nil => rfl
  | cons c cs => simp [scanDigits, digitInBase_space (hstop c rfl)]

/-- The digit loop on a run of digits that the end of the text or white space follows. -/
theorem scanDigits_followed (b : Nat) (ds rest : List Char)
    (h : ∀ c ∈ ds, (digitInBase b c).isSome = true)
    (hstop : ∀ c, rest.head? = some c → isspace c = true) :
    scanDigits b (ds ++ rest) 0 0 =
      (positional b (ds.map fun c => (digitValue c).getD 0), ds.length) := by
  rw [scanDigits_append b ds rest 0 0 h, scanDigits_stop b rest _ _ hstop,
    foldl_digits_eq_positional]
  simp

theorem hexIntroduced_zero_followed (ds rest : List Char)
    (h : ∀ c ∈ ds, (digitInBase 8 c).isSome = true)
    (hstop : ∀ c, rest.head? = some c → isspace c = true) :
    hexIntroduced ('0' :: (ds ++ rest)) = false := by
  have hx : ∀ c, (ds ++ rest).head? = some c → c ≠ 'x' ∧ c ≠ 'X' := by
    intro c hc
    cases ds with
    | nil =>
      have hs := hstop c (by simpa using hc)
      constructor <;> (intro e; subst e; revert hs; decide)
    | cons d ds =>
      have hd := h d (List.mem_cons_self _ _)
      have e : d = c := by simpa using hc
      subst e
      constructor <;> (intro e; subst e; revert hd; decide)
  match hl : ds ++ rest, hx with
  | [], _ => rfl
  | [_], _ => rfl
  | c1 :: _ :: _, hx =>
    have := hx c1 rfl
    simp [hexIntroduced, this.1, this.2]

/-- The text after the sign of a literal, followed by the end of the text or by white
space: what base detection and the digit loop make of it. -/
theorem detect_scan_literal_followed (L : IntLiteral) (h : L.wellFormed = true)
    (rest : List Char) (hstop : ∀ c, rest.head? = some c → isspace c = true) :
    scanDigits (detectBase 0 (L.radix.introducer L.upperX ++ L.digits ++ rest)).1
        (detectBase 0 (L.radix.introducer L.upperX ++ L.digits ++ rest)).2.2 0 0 =
      (L.magnitude, (L.radix.introducer L.upperX ++ L.digits).length -
        (detectBase 0 (L.radix.introducer L.upperX ++ L.digits ++ rest)).2.1) ∧
    (detectBase 0 (L.radix.introducer L.upperX ++ L.digits ++ rest)).2.1 <
      (L.radix.introducer L.upperX ++ L.digits).length := by
  obtain ⟨sign, radix, upperX, digits⟩ := L
  simp only [IntLiteral.wellFormed, Bool.and_eq_true, List.all_eq_true] at h
  obtain ⟨hall, hform⟩ := h
  simp only [IntLiteral.magnitude]
  cases radix with
  | decimal =>
    simp only [Radix.introducer, Radix.base, List.nil_append] at *
    match digits, hall, hform with
    | c :: cs, hall, hform =>
      have hc : c ≠ '0' := by simpa using hform
      have hdb : detectBase 0 (c :: cs ++ rest) = (10, 0, c :: cs ++ rest) := by
        simp [detectBase, hexIntroduced_of_ne_zero (cs ++ rest) hc, zeroLed, hc]
      rw [hdb]
      exact ⟨by simpa using scanDigits_followed 10 (c :: cs) rest hall hstop, by simp⟩
  | octal =>
    simp only [Radix.introducer, Radix.base, List.singleton_append] at *
    have hdb : detectBase 0 ('0' :: digits ++ rest) = (8, 0, '0' :: digits ++ rest) := by
      simp [detectBase, hexIntroduced_zero_followed digits rest hall hstop, zeroLed]
    rw [hdb]
    have hall0 : ∀ c ∈ '0' :: digits, (digitInBase 8 c).isSome = true := by
      intro c hc
      rcases List.mem_cons.mp hc with e | e
      · subst e; decide
      · exact hall c e
    refine ⟨?_, by simp⟩
    rw [scanDigits_followed 8 _ rest hall0 hstop]
    have h0 : (digitValue '0').getD 0 = 0 := by decide
    simp [positional, h0]
  | hexadecimal =>
    simp only [Radix.introducer, Radix.base] at *
    match digits, hall, hform with
    | c :: cs, hall, hform =>
      have hc := hall c (List.mem_cons_self _ _)
      have hdb : detectBase 0 (['0', if upperX = true then 'X' else 'x'] ++ c :: cs ++ rest) =
          (16, 2, c :: cs ++ rest) := by
        cases upperX <;> simp [detectBase, hexIntroduced, hc]
      rw [hdb]
      exact ⟨by simpa using scanDigits_followed 16 (c :: cs) rest hall hstop, by simp⟩

/-- Skipping white space in front of a text that starts with another character. -/
theorem skip_leading_space (ws : List Char) (c : Char) (cs : List Char)
    (hws : ∀ x ∈ ws, isspace x = true) (hc : isspace c = false) :
    (ws ++ c :: cs).takeWhile isspace = ws ∧ (ws ++ c :: cs).dropWhile isspace = c :: cs := by
  induction ws with
  | nil => simp [List.takeWhile, List.dropWhile, hc]
  | cons x xs ih =>
    have hx := hws x (List.mem_cons_self _ _)
    obtain ⟨h1, h2⟩ := ih (fun y hy => hws y (List.mem_cons_of_mem _ hy))
    simp [List.takeWhile, List.dropWhile, hx, h1, h2]

/-- The parse `strtoll` and `strtoull` share, on a literal with white space in front of it
and the end of the text or white space behind it: the white space in front is skipped and
counted, the literal is read to its end, and the parse stops there. -/
theorem strtoSubject_padded (L : IntLiteral) (h : L.wellFormed = true) (ws rest : List Char)
    (hws : ∀ x ∈ ws, isspace x = true)
    (hstop : ∀ c, rest.head? = some c → isspace c = true) :
    strtoSubject 0 (ws ++ (L.text ++ rest)) =
      some ⟨decide (L.sign = .minus), L.magnitude, ws.length + L.text.length⟩ := by
  obtain ⟨c, cs, hbody, hsp, hm, hp⟩ := literal_body_head L h
  obtain ⟨hscan, hlt⟩ := detect_scan_literal_followed L h rest hstop
  rw [hbody] at hscan hlt
  have htext : L.text ++ rest = L.sign.text ++ (c :: cs ++ rest) := by
    simp only [IntLiteral.text, hbody, List.append_assoc]
  have hsign : ∀ s : Sign, ∃ c0 cs0, s.text ++ (c :: cs ++ rest) = c0 :: cs0 ∧
      isspace c0 = false ∧
      readSign (c0 :: cs0) = (decide (s = .minus), s.text.length, c :: cs ++ rest) := by
    intro s
    cases s
    · exact ⟨c, cs ++ rest, rfl, hsp, by simp [Sign.text, readSign, hm, hp]⟩
    · exact ⟨'+', c :: cs ++ rest, rfl, by decide, by simp [Sign.text, readSign]⟩
    · exact ⟨'-', c :: cs ++ rest, rfl, by decide, by simp [Sign.text, readSign]⟩
  obtain ⟨c0, cs0, h0, hsp0, hread⟩ := hsign L.sign
  obtain ⟨h1, h2⟩ := skip_leading_space ws c0 cs0 hws hsp0
  unfold strtoSubject
  rw [htext, h0]
  simp only [h1, h2, hread, hscan]
  have hne : ¬ ((c :: cs).length - (detectBase 0 (c :: cs ++ rest)).2.1 = 0) := by omega
  rw [if_neg hne]
  congr 2
  simp only [IntLiteral.text, hbody, List.length_append]
  omega

/-- What `std::stoll` with base `0` returns on a literal with white space around it. -/
theorem stoll_padded (L : IntLiteral) (h : L.wellFormed = true) (ws rest : List Char)
    (hws : ∀ x ∈ ws, isspace x = true)
    (hstop : ∀ c, rest.head? = some c → isspace c = true) :
    stoll (ws ++ (L.text ++ rest)) 0 =
      if L.value < -(2 ^ 63) ∨ 2 ^ 63 - 1 < L.value then .error .out_of_range
      else .ok (L.value, ws.length + L.text.length) := by
  unfold stoll
  rw [strtoSubject_padded L h ws rest hws hstop]
  simp only [literal_signed_value]

/-- What `std::stoull` with base `0` returns on a literal with white space around it. -/
theorem stoull_padded (L : IntLiteral) (h : L.wellFormed = true) (ws rest : List Char)
    (hws : ∀ x ∈ ws, isspace x = true)
    (hstop : ∀ c, rest.head? = some c → isspace c = true) :
    stoull (ws ++ (L.text ++ rest)) 0 =
      if 2 ^ 64 - 1 < L.magnitude then .error .out_of_range
      else .ok (if decide (L.sign = .minus) = true then (2 ^ 64 - L.magnitude) % 2 ^ 64
        else L.magnitude, ws.length + L.text.length) := by
  unfold stoull
  rw [strtoSubject_padded L h ws rest hws hstop]

/-- C30. White space asymmetry in the integer strategies: when an integer literal coerces
successfully to a value, into a signed or an unsigned destination, the token made of white
space followed by the literal coerces successfully to the same value, and the token made
of the literal followed by at least one white space character fails. -/
theorem lexical_cast_white_space (w : Nat) (L : IntLiteral) (hL : L.wellFormed = true)
    (ws trail : List Char) (hws : ∀ c ∈ ws, isspace c = true)
    (hne : trail ≠ []) (htrail : ∀ c ∈ trail, isspace c = true)
    (outS priorS v : Int) (outU priorU u : Nat) :
    (lexical_cast_signed w L.text outS = .ok (true, v) →
      lexical_cast_signed w (ws ++ L.text) priorS = .ok (true, v) ∧
      ∃ o, lexical_cast_signed w (L.text ++ trail) priorS = .ok (false, o)) ∧
    (lexical_cast_unsigned w L.text outU = .ok (true, u) →
      lexical_cast_unsigned w (ws ++ L.text) priorU = .ok (true, u) ∧
      ∃ o, lexical_cast_unsigned w (L.text ++ trail) priorU = .ok (false, o)) := by
  have hnil : ∀ c, ([] : List Char).head? = some c → isspace c = true := by
    intro c hc; cases hc
  have hstop : ∀ c, trail.head? = some c → isspace c = true := by
    intro c hc
    cases trail with
    | nil => cases hc
    | cons t ts =>
      have e : t = c := by simpa using hc
      subst e
      exact htrail t (List.mem_cons_self _ _)
  have hlen : 0 < trail.length := List.length_pos.mpr hne
  have hlead_s := stoll_padded L hL ws [] hws hnil
  have hplain_s := stoll_padded L hL [] [] (by simp) hnil
  have htrail_s := stoll_padded L hL [] trail (by simp) hstop
  have hlead_u := stoull_padded L hL ws [] hws hnil
  have hplain_u := stoull_padded L hL [] [] (by simp) hnil
  have htrail_u := stoull_padded L hL [] trail (by simp) hstop
  simp only [List.append_nil, List.nil_append, List.length_nil, Nat.zero_add]
    at hlead_s hplain_s htrail_s hlead_u hplain_u htrail_u
  constructor
  · intro hyp
    unfold lexical_cast_signed at hyp ⊢
    rw [hplain_s] at hyp
    rw [hlead_s, htrail_s]
    by_cases h64 : L.value < -(2 ^ 63) ∨ 2 ^ 63 - 1 < L.value
    · rw [if_pos h64] at hyp
      cases hyp
    · simp only [if_neg h64] at hyp ⊢
      simp only [Except.ok.injEq, Prod.mk.injEq, Bool.and_eq_true, beq_iff_eq] at hyp
      obtain ⟨⟨_, hc⟩, hv⟩ := hyp
      subst hv
      constructor
      · simp [hc]
      · refine ⟨castSigned w L.value, ?_⟩
        have : (L.text.length == (L.text ++ trail).length) = false := by
          simp only [beq_eq_false_iff_ne, List.length_append]
          omega
        simp only [this, Bool.false_and]
  · intro hyp
    have hcheck : (!L.text.isEmpty && L.text.head? == some '-') = false := by
      by_contra hc
      simp only [Bool.not_eq_false] at hc
      unfold lexical_cast_unsigned at hyp
      rw [if_pos hc] at hyp
      cases hyp
    have hhead : L.text.head? ≠ some '-' := by
      intro e
      rw [e] at hcheck
      cases ht : L.text with
      | nil => rw [ht] at e; cases e
      | cons a as => rw [ht] at hcheck; simp at hcheck
    obtain ⟨c0, cs0, htext⟩ : ∃ c0 cs0, L.text = c0 :: cs0 := by
      obtain ⟨c, cs, hbody, _⟩ := literal_body_head L hL
      unfold IntLiteral.text
      rw [hbody]
      cases L.sign
      · exact ⟨_, _, rfl⟩
      · exact ⟨_, _, rfl⟩
      · exact ⟨_, _, rfl⟩
    have hc0 : c0 ≠ '-' := by
      intro e
      apply hhead
      rw [htext, e]
      rfl
    have hcheck_lead : (!(ws ++ L.text).isEmpty && (ws ++ L.text).head? == some '-') = false := by
      cases ws with
      | nil => simpa using hcheck
      | cons x xs =>
        have hx := hws x (List.mem_cons_self _ _)
        have : x ≠ '-' := by intro e; subst e; revert hx; decide
        simp [this]
    have hcheck_trail :
        (!(L.text ++ trail).isEmpty && (L.text ++ trail).head? == some '-') = false := by
      rw [htext]
      simp [hc0]
    unfold lexical_cast_unsigned at hyp ⊢
    rw [hcheck] at hyp
    rw [hcheck_lead, hcheck_trail]
    simp only [Bool.false_eq_true, if_false] at hyp ⊢
    generalize (if decide (L.sign = .minus) = true then (2 ^ 64 - L.magnitude) % 2 ^ 64
      else L.magnitude) = x at hlead_u hplain_u htrail_u
    rw [hplain_u] at hyp
    rw [hlead_u, htrail_u]
    by_cases h64 : 2 ^ 64 - 1 < L.magnitude
    · rw [if_pos h64] at hyp
      cases hyp
    · simp only [if_neg h64] at hyp ⊢
      simp only [Except.ok.injEq, Prod.mk.injEq, Bool.and_eq_true, beq_iff_eq] at hyp
      obtain ⟨⟨_, hc⟩, hv⟩ := hyp
      subst hv
      constructor
      · simp [hc]
      · refine ⟨castUnsigned w x, ?_⟩
        have : (L.text.length == (L.text ++ trail).length) = false := by
          simp only [beq_eq_false_iff_ne, List.length_append]
          omega
        simp only [this, Bool.false_and]

/-- C30, for the literal `42` into 32 bits, with a blank and a tab in front of it, and with
a blank behind it. -/
theorem lexical_cast_white_space_witness :
    (lexical_cast_signed 32 " \t42".toList 0 = .ok (true, 42) ∧
      ∃ o, lexical_cast_signed 32 "42 ".toList 0 = .ok (false, o)) ∧
    (lexical_cast_unsigned 32 " \t42".toList 0 = .ok (true, 42) ∧
      ∃ o, lexical_cast_unsigned 32 "42 ".toList 0 = .ok (false, o)) :=
  ⟨(lexical_cast_white_space 32 ⟨.none, .decimal, false, "42".toList⟩ (by decide)
      " \t".toList " ".toList (by decide) (by decide) (by decide) 0 0 42 0 0 42).1
      (by decide),
    (lexical_cast_white_space 32 ⟨.none, .decimal, false, "42".toList⟩ (by decide)
      " \t".toList " ".toList (by decide) (by decide) (by decide) 0 0 42 0 0 42).2
      (by decide)⟩

/-! ### Base detection -/

/-- The value of a literal is its magnitude under its sign. -/
theorem literal_value_eq (L : IntLiteral) : L.value = L.sign.apply L.magnitude := by
  unfold IntLiteral.value Sign.apply
  cases L.sign <;> rfl

/-- The parse of a token that starts with `0` and then `8` or `9` stops after the `0`. -/
theorem strtoSubject_zero_then_decimal (c : Char) (hc : c = '8' ∨ c = '9')
    (rest : List Char) : strtoSubject 0 ('0' :: c :: rest) = some ⟨false, 0, 1⟩ := by
  have hx : hexIntroduced ('0' :: c :: rest) = false := by
    cases rest with
    | nil => rfl
    | cons r rs => rcases hc with rfl | rfl <;> simp [hexIntroduced]
  have hd : digitInBase 8 c = none := by
    rcases hc with rfl | rfl <;> decide
  have h0 : digitInBase 8 '0' = some 0 := by decide
  have hs : isspace '0' = false := by decide
  simp [strtoSubject, List.takeWhile, List.dropWhile, hs, readSign, detectBase, hx, zeroLed,
    scanDigits, h0, hd]

/-- C22. Auto-detected base in the signed integer strategy: after an optional sign, a token
that is `0x` or `0X` and hexadecimal digits is read in base 16, a token that is `0` and
octal digits in base 8, and a token of decimal digits that does not start with `0` in base
10, each to the positional value of its digits when that fits the destination; a token
that starts with `0` and then `8` or `9` fails, the parse stopping after the `0`. -/
theorem lexical_cast_signed_auto_base (w : Nat) (hw : w = 8 ∨ w = 16 ∨ w = 32 ∨ w = 64)
    (sign : Sign) (upperX : Bool) (ds : List Char) (output : Int) :
    ((IntLiteral.mk sign .hexadecimal upperX ds).wellFormed = true →
      (-2 ^ (w - 1) ≤ sign.apply (positional 16 (ds.map fun c => (digitValue c).getD 0)) ∧
        sign.apply (positional 16 (ds.map fun c => (digitValue c).getD 0)) < 2 ^ (w - 1)) →
      lexical_cast_signed w (sign.text ++ '0' :: (if upperX then 'X' else 'x') :: ds) output =
        .ok (true, sign.apply (positional 16 (ds.map fun c => (digitValue c).getD 0)))) ∧
    ((IntLiteral.mk sign .octal upperX ds).wellFormed = true →
      (-2 ^ (w - 1) ≤ sign.apply (positional 8 (ds.map fun c => (digitValue c).getD 0)) ∧
        sign.apply (positional 8 (ds.map fun c => (digitValue c).getD 0)) < 2 ^ (w - 1)) →
      lexical_cast_signed w (sign.text ++ '0' :: ds) output =
        .ok (true, sign.apply (positional 8 (ds.map fun c => (digitValue c).getD 0)))) ∧
    ((IntLiteral.mk sign .decimal upperX ds).wellFormed = true →
      (-2 ^ (w - 1) ≤ sign.apply (positional 10 (ds.map fun c => (digitValue c).getD 0)) ∧
        sign.apply (positional 10 (ds.map fun c => (digitValue c).getD 0)) < 2 ^ (w - 1)) →
      lexical_cast_signed w (sign.text ++ ds) output =
        .ok (true, sign.apply (positional 10 (ds.map fun c => (digitValue c).getD 0)))) ∧
    (∀ c rest, c = '8' ∨ c = '9' →
      lexical_cast_signed w ('0' :: c :: rest) output = .ok (false, 0)) := by
  have hw0 : 0 < w := by omega
  have hw64 : w ≤ 64 := by omega
  refine ⟨?_, ?_, ?_, ?_⟩
  · intro hwf hfit
    have := lexical_cast_signed_fits w hw0 hw64 ⟨sign, .hexadecimal, upperX, ds⟩ hwf output
      (by rw [literal_value_eq]; exact hfit)
    rw [literal_value_eq] at this
    simpa [IntLiteral.text, Radix.introducer, IntLiteral.magnitude, Radix.base] using this
  · intro hwf hfit
    have := lexical_cast_signed_fits w hw0 hw64 ⟨sign, .octal, upperX, ds⟩ hwf output
      (by rw [literal_value_eq]; exact hfit)
    rw [literal_value_eq] at this
    simpa [IntLiteral.text, Radix.introducer, IntLiteral.magnitude, Radix.base] using this
  · intro hwf hfit
    have := lexical_cast_signed_fits w hw0 hw64 ⟨sign, .decimal, upperX, ds⟩ hwf output
      (by rw [literal_value_eq]; exact hfit)
    rw [literal_value_eq] at this
    simpa [IntLiteral.text, Radix.introducer, IntLiteral.magnitude, Radix.base] using this
  · intro c rest hc
    have h0 : castSigned w 0 = 0 :=
      (castSigned_eq_iff w hw0 0).mpr ⟨by simp, by positivity⟩
    simp [lexical_cast_signed, stoll, strtoSubject_zero_then_decimal c hc rest, h0]

/-- C22, into 32 bits: `0x1F` yields 31, `010` yields 8, `10` yields 10, and `08` fails. -/
theorem lexical_cast_signed_auto_base_witness :
    lexical_cast_signed 32 "0x1F".toList 0 = .ok (true, 31) ∧
    lexical_cast_signed 32 "010".toList 0 = .ok (true, 8) ∧
    lexical_cast_signed 32 "10".toList 0 = .ok (true, 10) ∧
    lexical_cast_signed 32 "08".toList 5 = .ok (false, 0) :=
  ⟨((lexical_cast_signed_auto_base 32 (by decide) .none false "1F".toList 0).1
      (by decide) (by decide)).trans (by decide),
    ((lexical_cast_signed_auto_base 32 (by decide) .none false "10".toList 0).2.1
      (by decide) (by decide)).trans (by decide),
    ((lexical_cast_signed_auto_base 32 (by decide) .none false "10".toList 0).2.2.1
      (by decide) (by decide)).trans (by decide),
    (lexical_cast_signed_auto_base 32 (by decide) .none false [] 5).2.2.2 '8' [] (by decide)⟩

/-! ### Totality of `type_name`, and the exit codes -/

/-- An overload of `type_name` is viable exactly when its condition holds. -/
theorem mem_type_name_viable (t : TypeTraits) (is_vec : Bool) (o : TypeNameOverload) :
    o ∈ type_name_viable t is_vec ↔ o.enabled t is_vec = true := by
  have hall : o ∈ [TypeNameOverload.INT, .UINT, .FLOAT, .VECTOR, .ENUM, .TEXT] := by
    cases o <;> decide
  simp only [type_name_viable, List.mem_filter, hall, true_and]

/-- For the answers ISO C++ allows, one overload of `type_name` is viable, and its tag goes
with the category of the type. -/
theorem type_name_viable_single (t : TypeTraits) (is_vec : Bool)
    (h : tagTraitsAllowed t is_vec = true) :
    ∃ o, type_name_viable t is_vec = [o] ∧
      ((t.is_integral = true ∧ t.is_signed = true → o = .INT) ∧
        (t.is_integral = true ∧ t.is_unsigned = true → o = .UINT) ∧
        (t.is_floating_point = true → o = .FLOAT) ∧
        (is_vec = true → o = .VECTOR) ∧
        (t.is_enum = true → o = .ENUM) ∧
        (t.is_integral = false ∧ t.is_floating_point = false ∧ is_vec = false ∧
          t.is_enum = false → o = .TEXT)) := by
  obtain ⟨a, b, c, d, e, f, g, k, i, j⟩ := t
  revert h
  cases a <;> cases b <;> cases c <;> cases d <;> cases e <;> cases f <;> cases g <;>
    cases k <;> cases i <;> cases j <;> cases is_vec <;> intro h <;>
    first
    | exact absurd h (by decide)
    | exact ⟨_, rfl, by decide⟩

/-- C31. The function `type_name` is total and unambiguous: for the answers of the type
traits that ISO C++ allows, exactly one of the six overloads is enabled, so the type has
exactly one tag: `INT` for a signed integral type, `UINT` for an unsigned integral type,
`FLOAT` for a floating-point type, `VECTOR` for a `std::vector`, `ENUM` for an enumeration
and `TEXT` for a type that is none of these. -/
theorem type_name_exactly_one_overload (t : TypeTraits) (is_vec : Bool)
    (h : tagTraitsAllowed t is_vec = true) :
    (type_name_viable t is_vec).length = 1 ∧
    (∃! o : TypeNameOverload, o.enabled t is_vec = true) ∧
    (∃ tag, type_name t is_vec = some tag) ∧
    (t.is_integral = true ∧ t.is_signed = true → type_name t is_vec = some "INT".toList) ∧
    (t.is_integral = true ∧ t.is_unsigned = true →
      type_name t is_vec = some "UINT".toList) ∧
    (t.is_floating_point = true → type_name t is_vec = some "FLOAT".toList) ∧
    (is_vec = true → type_name t is_vec = some "VECTOR".toList) ∧
    (t.is_enum = true → type_name t is_vec = some "ENUM".toList) ∧
    (t.is_integral = false ∧ t.is_floating_point = false ∧ is_vec = false ∧
      t.is_enum = false → type_name t is_vec = some "TEXT".toList) := by
  obtain ⟨o, ho, h1, h2, h3, h4, h5, h6⟩ := type_name_viable_single t is_vec h
  have htag : type_name t is_vec = some o.text := by
    unfold type_name
    rw [ho]
  refine ⟨by rw [ho]; rfl, ⟨o, ?_, ?_⟩, ⟨_, htag⟩, ?_, ?_, ?_, ?_, ?_, ?_⟩
  · exact (mem_type_name_viable t is_vec o).mp (by rw [ho]; exact List.mem_singleton_self o)
  · intro o2 h7
    have := (mem_type_name_viable t is_vec o2).mpr h7
    rw [ho] at this
    exact List.mem_singleton.mp this
  · intro hc; rw [htag, h1 hc]; rfl
  · intro hc; rw [htag, h2 hc]; rfl
  · intro hc; rw [htag, h3 hc]; rfl
  · intro hc; rw [htag, h4 hc]; rfl
  · intro hc; rw [htag, h5 hc]; rfl
  · intro hc; rw [htag, h6 hc]; rfl

/-- C31, for `bool` (an unsigned integral type: `UINT`), for `std::vector<int>` and for
`std::string`. -/
theorem type_name_exactly_one_overload_witness :
    tagTraitsAllowed traitsBool false = true ∧
    type_name traitsBool false = some "UINT".toList ∧
    tagTraitsAllowed traitsContainer true = true ∧
    type_name traitsContainer true = some "VECTOR".toList ∧
    tagTraitsAllowed traitsString false = true ∧
    type_name traitsString false = some "TEXT".toList :=
  ⟨by decide, (type_name_exactly_one_overload traitsBool false (by decide)).2.2.2.2.1
      (by decide),
    by decide, (type_name_exactly_one_overload traitsContainer true (by decide)).2.2.2.2.2.2.1
      rfl,
    by decide, (type_name_exactly_one_overload traitsString false
      (by decide)).2.2.2.2.2.2.2.2 (by decide)⟩

/-- C32. Exit codes identify the error kind: the integer values of the enumerators of
`ExitCodes` are pairwise distinct; in declaration order they are `0` for `Success`, the
consecutive values `100` to `113` for `IncorrectConstruction` to `OptionNotFound`, and
`127` for `BaseClass`; and no enumerator other than `Success` has the value `0`. -/
theorem exit_codes_identify_kind :
    (∀ a b : ExitCodes, a.toInt = b.toInt → a = b) ∧
    ExitCodes.declarations.map (fun d => (d.1, d.1.toInt)) =
      [(.Success, 0), (.IncorrectConstruction, 100), (.BadNameString, 101),
        (.OptionAlreadyAdded, 102), (.File, 103), (.ConversionError, 104),
        (.ValidationError, 105), (.RequiredError, 106), (.RequiresError, 107),
        (.ExcludesError, 108), (.ExtrasError, 109), (.ExtrasINIError, 110),
        (.InvalidError, 111), (.HorribleError, 112), (.OptionNotFound, 113),
        (.BaseClass, 127)] ∧
    (∀ a : ExitCodes, a ∈ ExitCodes.declarations.map Prod.fst) ∧
    (∀ a : ExitCodes, a ≠ .Success → a.toInt ≠ 0) := by
  refine ⟨?_, by decide, ?_, ?_⟩
  · intro a b
    cases a <;> cases b <;> decide
  · intro a
    cases a <;> decide
  · intro a
    cases a <;> decide

/-- C32, for two kinds: a conversion error and a validation error have the exit codes
`104` and `105`, which differ, and neither is `0`. -/
theorem exit_codes_identify_kind_witness :
    (ConversionError.simple "a".toList).get_exit_code = 104 ∧
    (ValidationError.simple "b".toList).get_exit_code = 105 ∧
    ExitCodes.ConversionError.toInt ≠ ExitCodes.ValidationError.toInt ∧
    ExitCodes.ConversionError.toInt ≠ 0 :=
  ⟨by decide, by decide,
    fun e => absurd (exit_codes_identify_kind.1 _ _ e) (by decide),
    exit_codes_identify_kind.2.2.2 _ (by decide)⟩

end CLI
